import Mathlib

/-!
nfpm: descriptor validation, defaults, format registry and the RPM packager.

A shallow embedding of `nfpm.go` (package `nfpm`) and `rpm/rpm.go` (package `rpm`).
Go strings are Lean `String`s; string algorithms work on the character list
`String.data`.  Go maps that are iterated are association lists; fallible
functions return `Except`.
-/

namespace nfpm

/-! ## Data model (`nfpm.go`, lines 121-198) -/

/-- Scripts contains information about maintainer scripts for packages. -/
structure Scripts where
  PreInstall : String := ""
  PostInstall : String := ""
  PreRemove : String := ""
  PostRemove : String := ""
  deriving DecidableEq, Repr

/-- RPM is custom configs that are only available on RPM packages. -/
structure RPM where
  Group : String := ""
  Compression : String := ""
  ConfigNoReplaceFiles : List (String × String) := []
  deriving DecidableEq, Repr

/-- DebTriggers contains triggers only available for deb packages. -/
structure DebTriggers where
  Interest : List String := []
  InterestAwait : List String := []
  InterestNoAwait : List String := []
  Activate : List String := []
  ActivateAwait : List String := []
  ActivateNoAwait : List String := []
  deriving DecidableEq, Repr

/-- DebScripts is scripts only available on deb packages. -/
structure DebScripts where
  Rules : String := ""
  deriving DecidableEq, Repr

/-- Deb is custom configs that are only available on deb packages. -/
structure Deb where
  Scripts : DebScripts := {}
  Triggers : DebTriggers := {}
  VersionMetadata : String := ""
  deriving DecidableEq, Repr

/-- Overridables contain the field which are overridable in a package.
The three `map[string]string` fields are association lists (source, destination). -/
structure Overridables where
  Replaces : List String := []
  Provides : List String := []
  Depends : List String := []
  Recommends : List String := []
  Suggests : List String := []
  Conflicts : List String := []
  Files : List (String × String) := []
  ConfigFiles : List (String × String) := []
  Symlinks : List (String × String) := []
  EmptyFolders : List String := []
  Scripts : Scripts := {}
  RPM : RPM := {}
  Deb : Deb := {}
  deriving DecidableEq, Repr

/-- Info contains information about a single package. -/
structure Info extends Overridables where
  Name : String := ""
  Arch : String := ""
  Platform : String := ""
  Epoch : String := ""
  Version : String := ""
  Release : String := ""
  Prerelease : String := ""
  Section : String := ""
  Priority : String := ""
  Maintainer : String := ""
  Description : String := ""
  Vendor : String := ""
  Homepage : String := ""
  License : String := ""
  Bindir : String := ""
  Changelog : String := ""
  Target : String := ""
  deriving DecidableEq, Repr

deriving instance DecidableEq for Except

/-! ## Validation (`nfpm.go`, lines 200-221) -/

/-- ErrFieldEmpty happens when some required field is empty. -/
structure ErrFieldEmpty where
  field : String
  deriving DecidableEq, Repr

/-- The text of `ErrFieldEmpty.Error()`. -/
def ErrFieldEmpty.Error (e : ErrFieldEmpty) : String :=
  "package " ++ e.field ++ " must be provided"

/-- Validate the given Info and returns an error if it is invalid.
`Except.ok ()` is Go's `nil` error. -/
def Validate (info : Info) : Except ErrFieldEmpty Unit :=
  if info.Name = "" then .error ⟨"name"⟩
  else if info.Arch = "" then .error ⟨"arch"⟩
  else if info.Version = "" then .error ⟨"version"⟩
  else .ok ()

/-! ## Format registry (`nfpm.go`, lines 21-50) -/

/-- ErrNoPackager happens when no packager is registered for the given format. -/
structure ErrNoPackager where
  format : String
  deriving DecidableEq, Repr

/-- The text of `ErrNoPackager.Error()`. -/
def ErrNoPackager.Error (e : ErrNoPackager) : String :=
  "no packager registered for the format " ++ e.format

/-- The global `packagers` map from format name to packager, for any packager type `P`. -/
abbrev Packagers (P : Type) := String → Option P

/-- The initial value `map[string]Packager{}`. -/
def packagers (P : Type) : Packagers P := fun _ => none

/-- Register a new packager for the given format: `packagers[format] = p`. -/
def Register {P : Type} (format : String) (p : P) (m : Packagers P) : Packagers P :=
  fun k => if k = format then some p else m k

/-- Get a packager for the given format. -/
def Get {P : Type} (format : String) (m : Packagers P) : Except ErrNoPackager P :=
  match m format with
  | none => .error ⟨format⟩
  | some p => .ok p

/-- The `packagers` map after a sequence of `Register` calls, first call first. -/
def registerAll {P : Type} (calls : List (String × P)) : Packagers P :=
  calls.foldl (fun m c => Register c.1 c.2 m) (packagers P)

end nfpm

/-! ## `strconv` (Go standard library), as used by `isInt` and `semver.NewVersion` -/

namespace strconv

/-- The value of a decimal digit character (`ch - '0'`). -/
def digitVal (c : Char) : Nat := c.toNat - 48

/-- The value of a string of decimal digits, most significant first
(`n = n*10 + digit` over the bytes). -/
def digitsVal (s : List Char) : Nat := s.foldl (fun n c => n * 10 + digitVal c) 0

/-- `strconv.ParseUint(s, 10, 64)`: a non-empty string of decimal digits whose
value fits in 64 bits; `none` is a syntax or range error. -/
def ParseUint (s : List Char) : Option Nat :=
  if s = [] then none
  else if s.all Char.isDigit then
    if digitsVal s < 2 ^ 64 then some (digitsVal s) else none
  else none

/-- `strconv.Atoi(s)` on a platform with 64-bit `int`: an optional sign `+` or `-`,
then `ParseUint`, then the range check of `ParseInt` against `1 << 63`. -/
def Atoi (s : List Char) : Option Int :=
  match s with
  | [] => none
  | '-' :: t =>
    match ParseUint t with
    | some un => if un ≤ 2 ^ 63 then some (-(un : Int)) else none
    | none => none
  | '+' :: t =>
    match ParseUint t with
    | some un => if un < 2 ^ 63 then some (un : Int) else none
    | none => none
  | c :: t =>
    match ParseUint (c :: t) with
    | some un => if un < 2 ^ 63 then some (un : Int) else none
    | none => none

end strconv

/-! ## `github.com/Masterminds/semver/v3` (imported at `nfpm.go`, line 14)

The library is a dependency, not part of the repository; `NewVersion` is the
lenient parser that `WithDefaults` calls.  Its regular expression
`^v?([0-9]+)(\.[0-9]+)?(\.[0-9]+)?(-(ID(\.ID)*))?(\+(ID(\.ID)*))?$` with
`ID = [0-9A-Za-z-]+` is written out as a deterministic matcher. -/

namespace semver

/-- A parsed semantic version. -/
structure Version where
  major : Nat
  minor : Nat
  patch : Nat
  pre : String
  metadata : String
  original : String
  deriving DecidableEq, Repr

/-- The errors of `NewVersion`. -/
inductive Error where
  | ErrInvalidSemVer
  | ErrParseSegment
  | ErrSegmentStartsZero
  | ErrInvalidPrerelease
  | ErrInvalidMetadata
  deriving DecidableEq, Repr

/-- The character class `[0-9A-Za-z-]` (the constant `allowed`). -/
def allowed (c : Char) : Bool := c.isAlphanum || c == '-'

/-- The longest prefix of decimal digits and what follows it (`[0-9]*`, greedy). -/
def spanDigits : List Char → List Char × List Char
  | [] => ([], [])
  | c :: t =>
    if c.isDigit then ((spanDigits t).1.cons c, (spanDigits t).2) else ([], c :: t)

/-- The optional group `(\.[0-9]+)?`: the matched text (with its dot, empty when
the group does not take part) and the rest of the input. -/
def optDotNum (s : List Char) : List Char × List Char :=
  match s with
  | '.' :: t =>
    if (spanDigits t).1 = [] then ([], s) else ('.' :: (spanDigits t).1, (spanDigits t).2)
  | _ => ([], s)

/-- `strings.Split(s, ".")` on characters: the segments between dots. -/
def splitDots : List Char → List (List Char)
  | [] => [[]]
  | c :: t =>
    if c = '.' then [] :: splitDots t
    else
      match splitDots t with
      | [] => [[c]]
      | seg :: segs => (c :: seg) :: segs

/-- The sub-expression `ID(\.ID)*` matched against a whole string: dot-separated,
every segment non-empty and made of allowed characters. -/
def isDotted (s : List Char) : Bool :=
  (splitDots s).all (fun seg => seg ≠ [] && seg.all allowed)

/-- The text up to (not including) the first `+`, and the rest from that `+` on. -/
def spanNotPlus : List Char → List Char × List Char
  | [] => ([], [])
  | c :: t =>
    if c = '+' then ([], c :: t) else ((spanNotPlus t).1.cons c, (spanNotPlus t).2)

/-- The end of the expression, `(-(ID(\.ID)*))?(\+(ID(\.ID)*))?$`: submatches 5
(prerelease) and 8 (metadata), or `none` when the input does not match. -/
def matchTail (s : List Char) : Option (List Char × List Char) :=
  match s with
  | [] => some ([], [])
  | '-' :: t =>
    if isDotted (spanNotPlus t).1 then
      match (spanNotPlus t).2 with
      | [] => some ((spanNotPlus t).1, [])
      | _ :: m => if isDotted m then some ((spanNotPlus t).1, m) else none
    else none
  | '+' :: m => if isDotted m then some ([], m) else none
  | _ => none

/-- The submatches of `versionRegex.FindStringSubmatch`. -/
structure Submatch where
  m1 : List Char
  m2 : List Char
  m3 : List Char
  m5 : List Char
  m8 : List Char
  deriving DecidableEq, Repr

/-- The optional prefix `v?`: the input without one leading `v`. -/
def stripV : List Char → List Char
  | 'v' :: t => t
  | s => s

/-- The anchored expression `^v?([0-9]+)(\.[0-9]+)?(\.[0-9]+)?...$`. -/
def FindStringSubmatch (s : List Char) : Option Submatch :=
  let s0 := stripV s
  if (spanDigits s0).1 = [] then none
  else
    let g2 := optDotNum (spanDigits s0).2
    let g3 := optDotNum g2.2
    match matchTail g3.2 with
    | some (pre, build) => some ⟨(spanDigits s0).1, g2.1, g3.1, pre, build⟩
    | none => none

/-- `containsOnly(s, num)`. -/
def onlyNum (s : List Char) : Bool := s.all Char.isDigit

/-- `containsOnly(s, allowed)`. -/
def onlyAllowed (s : List Char) : Bool := s.all allowed

/-- One segment of `validatePrerelease`: a numeric segment may not start with a
zero unless it is `0`; any other segment must be made of allowed characters. -/
def validatePrereleaseSeg (p : List Char) : Except Error Unit :=
  if onlyNum p then
    if 1 < p.length ∧ p.head? = some '0' then .error .ErrSegmentStartsZero else .ok ()
  else if !onlyAllowed p then .error .ErrInvalidPrerelease
  else .ok ()

/-- The loop of `validatePrerelease` over the segments, first error wins. -/
def validatePrereleaseSegs : List (List Char) → Except Error Unit
  | [] => .ok ()
  | p :: ps =>
    match validatePrereleaseSeg p with
    | .error e => .error e
    | .ok () => validatePrereleaseSegs ps

/-- `validatePrerelease(p)`. -/
def validatePrerelease (p : List Char) : Except Error Unit :=
  validatePrereleaseSegs (splitDots p)

/-- `validateMetadata(m)`: every dot-separated segment is made of allowed characters. -/
def validateMetadata (m : List Char) : Except Error Unit :=
  if (splitDots m).all onlyAllowed then .ok () else .error .ErrInvalidMetadata

/-- A regexp group `(\.[0-9]+)?` as a number: 0 when the group is empty, else
`ParseUint` of the text after `strings.TrimPrefix(m, ".")`. -/
def parseGroup (g : List Char) : Option Nat :=
  match g with
  | [] => some 0
  | '.' :: d => strconv.ParseUint d
  | c :: d => strconv.ParseUint (c :: d)

/-- `semver.NewVersion(v)`. -/
def NewVersion (v : String) : Except Error Version :=
  match FindStringSubmatch v.data with
  | none => .error .ErrInvalidSemVer
  | some m =>
    match strconv.ParseUint m.m1, parseGroup m.m2, parseGroup m.m3 with
    | some major, some minor, some patch =>
      match (if m.m5 ≠ [] then validatePrerelease m.m5 else .ok ()) with
      | .error e => .error e
      | .ok () =>
        match (if m.m8 ≠ [] then validateMetadata m.m8 else .ok ()) with
        | .error e => .error e
        | .ok () => .ok ⟨major, minor, patch, String.mk m.m5, String.mk m.m8, v⟩
    | _, _, _ => .error .ErrParseSegment

end semver

namespace nfpm

/-! ## Defaults (`nfpm.go`, lines 223-269) -/

/-- `isInt(s)`: `strconv.Atoi` returns no error. -/
def isInt (s : String) : Bool := (strconv.Atoi s.data).isSome

/-- `fmt.Sprintf("%d.%d.%d", major, minor, patch)`. -/
def fmtVersion (major minor patch : Nat) : String :=
  String.mk ((Nat.repr major).data ++ '.' :: (Nat.repr minor).data ++ '.' :: (Nat.repr patch).data)

/-- WithDefaults set some sane defaults into the given Info. -/
def WithDefaults (info : Info) : Info :=
  let info := if info.Platform = "" then { info with Platform := "linux" } else info
  let info :=
    if info.Description = "" then { info with Description := "no description given" } else info
  match semver.NewVersion info.Version with
  | .ok v =>
    let info := { info with Version := fmtVersion v.major v.minor v.patch }
    let info :=
      if info.Release = "" ∧ isInt v.pre = true then { info with Release := v.pre } else info
    let info :=
      if info.Prerelease = "" ∧ isInt v.pre = false then { info with Prerelease := v.pre }
      else info
    info
  | .error _ => info

/-! ## The shape of a version text, as the specification words it -/

/-- An optional part of a version text: nothing, or the separator and the part. -/
def optPart (sep : Char) : Option (List Char) → List Char
  | none => []
  | some p => sep :: p

/-- The text `major.minor.patch[-prerelease][+build]` with the three numbers
written as the digit strings `dM`, `dm`, `dp`. -/
def semverText (dM dm dp : List Char) (pre build : Option (List Char)) : String :=
  String.mk (dM ++ '.' :: (dm ++ '.' :: (dp ++ (optPart '-' pre ++ optPart '+' build))))

/-- Whether a text has the strict shape `major.minor.patch[-prerelease][+build]`:
three non-empty runs of digits separated by dots, then the optional parts. -/
def strictShape (s : String) : Bool :=
  (semver.spanDigits s.data).1 ≠ [] &&
  match (semver.spanDigits s.data).2 with
  | '.' :: t1 =>
    (semver.spanDigits t1).1 ≠ [] &&
    match (semver.spanDigits t1).2 with
    | '.' :: t2 =>
      (semver.spanDigits t2).1 ≠ [] && (semver.matchTail (semver.spanDigits t2).2).isSome
    | _ => false
  | _ => false

/-- Whether a prerelease tag is purely numeric: non-empty, decimal digits only. -/
def purelyNumeric (t : String) : Bool := t.data ≠ [] && t.data.all Char.isDigit

end nfpm

/-! ## `strings.SplitN` (Go standard library), for a one-character separator -/

namespace strings

/-- The text before the first `sep` and the text after it (`strings.Index` and the
two slices around the match); `none` when `sep` does not occur. -/
def cut (sep : Char) : List Char → Option (List Char × List Char)
  | [] => none
  | c :: t =>
    if c = sep then some ([], t)
    else
      match cut sep t with
      | none => none
      | some (a, b) => some (c :: a, b)

/-- `strings.SplitN(s, sep, n)` for `n ≥ 0`: at most `n` substrings, the last one
the unsplit remainder. -/
def SplitN (sep : Char) : Nat → List Char → List (List Char)
  | 0, _ => []
  | 1, s => [s]
  | n + 2, s =>
    match cut sep s with
    | none => [s]
    | some (a, b) => a :: SplitN sep (n + 1) b

end strings

/-! ## `github.com/google/rpmpack` (imported at `rpm/rpm.go`, line 10)

The header builder is a dependency.  Its package value records the metadata it was
built from, the `AddFile` calls in order and the scripts; whether `NewRPM` fails and
what `Write` emits are left to the library (`Lib`). -/

namespace rpmpack

/-- The contents of a file, or the bytes written to a writer. -/
abbrev Bytes := List UInt8

/-- The fields of `RPMMetaData` that `rpm.Package` fills in. -/
structure RPMMetaData where
  Name : String := ""
  Description : String := ""
  Version : String := ""
  Release : String := ""
  Arch : String := ""
  Platform : String := ""
  Licence : String := ""
  URL : String := ""
  Vendor : String := ""
  Packager : String := ""
  Provides : List String := []
  Depends : List String := []
  Replaces : List String := []
  Suggests : List String := []
  Conflicts : List String := []
  Compressor : String := ""
  deriving DecidableEq, Repr

/-- The file types that `rpm.go` uses: the zero value and `ConfigFile`. -/
inductive FileType where
  | GenericFile
  | ConfigFile
  deriving DecidableEq, Repr

/-- The fields of `RPMFile` that `rpm.go` fills in (`Type_` is the field `Type`). -/
structure RPMFile where
  Name : String := ""
  Body : Bytes := []
  Mode : Nat := 0
  Type_ : FileType := .GenericFile
  deriving DecidableEq, Repr

/-- The package under construction. -/
structure RPM where
  metadata : RPMMetaData
  files : List RPMFile := []
  prein : Option Bytes := none
  preun : Option Bytes := none
  postin : Option Bytes := none
  postun : Option Bytes := none
  deriving DecidableEq, Repr

/-- Calling `AddFile(f)`: one more entry, after the earlier ones. -/
def RPM.AddFile (r : RPM) (f : RPMFile) : RPM := { r with files := r.files ++ [f] }

/-- A run of `AddFile` calls, one per element of `fs`, in order. -/
def RPM.addFiles (r : RPM) (fs : List RPMFile) : RPM := { r with files := r.files ++ fs }

/-- Calling `AddPrein(s)`. -/
def RPM.AddPrein (r : RPM) (s : Bytes) : RPM := { r with prein := some s }

/-- Calling `AddPreun(s)`. -/
def RPM.AddPreun (r : RPM) (s : Bytes) : RPM := { r with preun := some s }

/-- Calling `AddPostin(s)`. -/
def RPM.AddPostin (r : RPM) (s : Bytes) : RPM := { r with postin := some s }

/-- Calling `AddPostun(s)`. -/
def RPM.AddPostun (r : RPM) (s : Bytes) : RPM := { r with postun := some s }

/-- What the library decides: the error of `NewRPM` on a metadata value (`none`:
no error), and for `Write` the error it returns and the bytes it wrote to the
writer. -/
structure Lib where
  newRPMError : RPMMetaData → Option String
  Write : RPM → Option String × Bytes

/-- `rpmpack.NewRPM(m)`. -/
def Lib.NewRPM (lib : Lib) (m : RPMMetaData) : Except String RPM :=
  match lib.newRPMError m with
  | some msg => .error msg
  | none => .ok { metadata := m }

end rpmpack

/-! ## The RPM packager (`rpm/rpm.go`) -/

namespace rpm

open nfpm

/-- What `os.Stat` reports of an open file: `IsDir()` and `Mode()`. -/
structure FileInfo where
  IsDir : Bool
  Mode : Nat
  deriving DecidableEq, Repr

/-- An open file: the results of `file.Stat()` and of `ioutil.ReadAll(file)`. -/
structure File where
  Stat : Except String FileInfo
  ReadAll : Except String rpmpack.Bytes

/-- The source tree a build reads: `os.OpenFile`, `ioutil.ReadFile` and `glob.Glob`.
Every call of `glob.Glob` returns a fresh map, which the `range` loop visits in an
order of its own: `Glob config i src dst` is the result of the call made for the
`i`-th pair that the pass `copy(_, config)` visits, as the pairs of the returned map
in the order the loop visits them. -/
structure Env where
  OpenFile : String → Except String File
  ReadFile : String → Except String rpmpack.Bytes
  Glob : Bool → Nat → String → String → Except String (List (String × String))

/-- One access to the source tree. -/
inductive FsOp where
  | glob (pattern dst : String)
  | openFile (path : String)
  | readFile (path : String)
  deriving DecidableEq, Repr

/-- The errors `Package` returns: the validation error, an error of a collaborator
(by its message), or the run-time panic of an index out of range. -/
inductive PackageError where
  | fieldEmpty (e : ErrFieldEmpty)
  | other (msg : String)
  | indexOutOfRange
  deriving DecidableEq, Repr

/-- The package under construction together with the accesses made so far. -/
structure Build where
  rpm : rpmpack.RPM
  ops : List FsOp
  deriving DecidableEq, Repr

/-- What a call of `Package` did: the error it returned (`none` is `nil`), its
accesses to the source tree in order, and the bytes it wrote to `w`. -/
structure Outcome where
  err : Option PackageError
  ops : List FsOp
  written : rpmpack.Bytes
  deriving DecidableEq, Repr

/-- The table `archToRPM`. -/
def archToRPM : List (String × String) :=
  [("amd64", "x86_64"), ("386", "i386"), ("arm64", "aarch64")]

/-- `ensureValidArch(info)`. -/
def ensureValidArch (info : Info) : Info :=
  match archToRPM.lookup info.Arch with
  | some arch => { info with Arch := arch }
  | none => info

/-- Lines 51-52 of `Package`: `strings.SplitN(info.Version, "-", 2)` with `""` appended. -/
def vInfo (info : Info) : List String :=
  (strings.SplitN '-' 2 info.Version.data).map String.mk ++ [""]

/-- Lines 53-70 of `Package`: the `RPMMetaData` literal; `none` when `vInfo[0]` or
`vInfo[1]` is out of range. -/
def metaData (info : Info) : Option rpmpack.RPMMetaData :=
  match (vInfo info)[0]?, (vInfo info)[1]? with
  | some version, some release =>
    some {
      Name := info.Name
      Description := info.Description
      Version := version
      Release := release
      Arch := info.Arch
      Platform := info.Platform
      Licence := info.License
      URL := info.Homepage
      Vendor := info.Vendor
      Packager := info.Maintainer
      Provides := info.Provides
      Depends := info.Depends
      Replaces := info.Replaces
      Suggests := info.Suggests
      Conflicts := info.Conflicts
      Compressor := info.RPM.Compression }
  | _, _ => none

/-- Lines 45-70 of `Package`: the metadata `Package` passes to `rpmpack.NewRPM`, or
the error it returns before that call. -/
def headerArgs (info : Info) : Except PackageError rpmpack.RPMMetaData :=
  match Validate (ensureValidArch info) with
  | .error e => .error (.fieldEmpty e)
  | .ok () =>
    match metaData (ensureValidArch info) with
    | none => .error .indexOutOfRange
    | some m => .ok m

/-- `addEmptyDirsRPM(info, rpm)`. -/
def addEmptyDirsRPM (info : Info) (rpm : rpmpack.RPM) : rpmpack.RPM :=
  info.EmptyFolders.foldl (fun r dir => r.AddFile { Name := dir, Mode := 1 ||| 0o40000 }) rpm

/-- `copyToRPM(rpm, src, dst, config)`. -/
def copyToRPM (env : Env) (b : Build) (src dst : String) (config : Bool) :
    Option PackageError × Build :=
  let b : Build := { b with ops := b.ops ++ [.openFile src] }
  match env.OpenFile src with
  | .error msg => (some (.other ("could not add file to the archive: " ++ msg)), b)
  | .ok file =>
    match file.Stat with
    | .error msg => (some (.other msg), b)
    | .ok fi =>
      if fi.IsDir then (none, b)
      else
        match file.ReadAll with
        | .error msg => (some (.other msg), b)
        | .ok data =>
          let rpmFile : rpmpack.RPMFile := { Name := dst, Body := data, Mode := fi.Mode }
          let rpmFile := if config then { rpmFile with Type_ := .ConfigFile } else rpmFile
          (none, { b with rpm := b.rpm.AddFile rpmFile })

/-- The inner loop of `copy`: `for src, dst := range globbed`. -/
def copyGlobbed (env : Env) (config : Bool) :
    Build → List (String × String) → Option PackageError × Build
  | b, [] => (none, b)
  | b, (src, dst) :: rest =>
    match copyToRPM env b src dst config with
    | (some err, b1) => (some err, b1)
    | (none, b1) => copyGlobbed env config b1 rest

/-- The closure `copy` of `createFilesInsideRPM`: `for srcglob, dstroot := range files`,
over the map in the order the loop visits it; `i` counts the pairs visited so far. -/
def copy (env : Env) (config : Bool) :
    Nat → Build → List (String × String) → Option PackageError × Build
  | _, b, [] => (none, b)
  | i, b, (srcglob, dstroot) :: rest =>
    let b1 : Build := { b with ops := b.ops ++ [.glob srcglob dstroot] }
    match env.Glob config i srcglob dstroot with
    | .error msg => (some (.other msg), b1)
    | .ok globbed =>
      match copyGlobbed env config b1 globbed with
      | (some err, b2) => (some err, b2)
      | (none, b2) => copy env config (i + 1) b2 rest

/-- `createFilesInsideRPM(info, rpm)`. -/
def createFilesInsideRPM (env : Env) (info : Info) (b : Build) : Option PackageError × Build :=
  match copy env false 0 b info.Files with
  | (some err, b1) => (some err, b1)
  | (none, b1) => copy env true 0 b1 info.ConfigFiles

/-- One script of `addScriptFiles`: read the file when a path is given and hand its
text to the package. -/
def addScript (env : Env) (path : String) (add : rpmpack.RPM → rpmpack.Bytes → rpmpack.RPM)
    (b : Build) : Option PackageError × Build :=
  if path ≠ "" then
    let b1 : Build := { b with ops := b.ops ++ [.readFile path] }
    match env.ReadFile path with
    | .error msg => (some (.other msg), b1)
    | .ok data => (none, { b1 with rpm := add b1.rpm data })
  else (none, b)

/-- `addScriptFiles(info, rpm)`. -/
def addScriptFiles (env : Env) (info : Info) (b : Build) : Option PackageError × Build :=
  match addScript env info.Scripts.PreInstall rpmpack.RPM.AddPrein b with
  | (some err, b1) => (some err, b1)
  | (none, b1) =>
    match addScript env info.Scripts.PreRemove rpmpack.RPM.AddPreun b1 with
    | (some err, b2) => (some err, b2)
    | (none, b2) =>
      match addScript env info.Scripts.PostInstall rpmpack.RPM.AddPostin b2 with
      | (some err, b3) => (some err, b3)
      | (none, b3) => addScript env info.Scripts.PostRemove rpmpack.RPM.AddPostun b3

/-- Package writes a new RPM package to the given writer using the given info. -/
def Package (env : Env) (lib : rpmpack.Lib) (info : Info) : Outcome :=
  match headerArgs info with
  | .error e => ⟨some e, [], []⟩
  | .ok m =>
    match lib.NewRPM m with
    | .error msg => ⟨some (.other msg), [], []⟩
    | .ok rpm =>
      let info := ensureValidArch info
      let rpm := addEmptyDirsRPM info rpm
      match createFilesInsideRPM env info ⟨rpm, []⟩ with
      | (some err, b) => ⟨some err, b.ops, []⟩
      | (none, b) =>
        match addScriptFiles env info b with
        | (some err, b1) => ⟨some err, b1.ops, []⟩
        | (none, b1) =>
          match lib.Write b1.rpm with
          | (some msg, out) => ⟨some (.other msg), b1.ops, out⟩
          | (none, out) => ⟨none, b1.ops, out⟩

/-- A source tree with one regular file `/src/a`; every script path reads as one byte. -/
def exampleEnv : Env where
  OpenFile := fun p =>
    if p = "/src/a" then .ok ⟨.ok ⟨false, 0o644⟩, .ok [1, 2]⟩ else .error "no such file"
  ReadFile := fun _ => .ok [7]
  Glob := fun _ _ src dst => .ok [(src, dst ++ "/a")]

/-- A header builder that accepts every metadata value and writes one byte, the
number of file entries. -/
def exampleLib : rpmpack.Lib where
  newRPMError := fun _ => none
  Write := fun r => (none, [UInt8.ofNat r.files.length])

/-! ### What the copy loops add, and two runs over the same source tree -/

/-- The entry `copyToRPM` adds for one source file: the error it returns, no entry
for a directory, or the file entry. -/
def fileEntry (env : Env) (src dst : String) (config : Bool) :
    Except PackageError (Option rpmpack.RPMFile) :=
  match env.OpenFile src with
  | .error msg => .error (.other ("could not add file to the archive: " ++ msg))
  | .ok file =>
    match file.Stat with
    | .error msg => .error (.other msg)
    | .ok fi =>
      if fi.IsDir then .ok none
      else
        match file.ReadAll with
        | .error msg => .error (.other msg)
        | .ok data =>
          .ok (some
            (if config then
              { Name := dst, Body := data, Mode := fi.Mode, Type_ := .ConfigFile }
            else { Name := dst, Body := data, Mode := fi.Mode }))

/-- The entry of one pair of a glob result, when there is one. -/
def entryOf (env : Env) (config : Bool) (p : String × String) : Option rpmpack.RPMFile :=
  match fileEntry env p.1 p.2 config with
  | .ok (some f) => some f
  | _ => none

/-- The entries of a glob result, in the order the loop visits it. -/
def globbedEntries (env : Env) (config : Bool) (globbed : List (String × String)) :
    List rpmpack.RPMFile :=
  globbed.filterMap (entryOf env config)

/-- No source file of a glob result makes `copyToRPM` fail. -/
def globbedOk (env : Env) (config : Bool) (globbed : List (String × String)) : Prop :=
  ∀ p ∈ globbed, ∃ o, fileEntry env p.1 p.2 config = .ok o

/-- The entries of the `i`-th pair of a files map: those of its glob result. -/
def patternEntries (env : Env) (config : Bool) (i : Nat) (p : String × String) :
    List rpmpack.RPMFile :=
  match env.Glob config i p.1 p.2 with
  | .ok globbed => globbedEntries env config globbed
  | .error _ => []

/-- The entries of the pairs of a files map from the `i`-th on, in loop order. -/
def copyEntriesFrom (env : Env) (config : Bool) :
    Nat → List (String × String) → List rpmpack.RPMFile
  | _, [] => []
  | i, p :: rest => patternEntries env config i p ++ copyEntriesFrom env config (i + 1) rest

/-- The entries of a files map, in the order the loops visit it. -/
def copyEntries (env : Env) (config : Bool) (files : List (String × String)) :
    List rpmpack.RPMFile :=
  copyEntriesFrom env config 0 files

/-- From the `i`-th pair on, every pattern of a files map expands and no expanded
file makes `copyToRPM` fail. -/
def copyOkFrom (env : Env) (config : Bool) : Nat → List (String × String) → Prop
  | _, [] => True
  | i, p :: rest =>
    (∃ globbed, env.Glob config i p.1 p.2 = .ok globbed ∧ globbedOk env config globbed) ∧
    copyOkFrom env config (i + 1) rest

/-- Every pattern of a files map expands and no expanded file makes `copyToRPM` fail. -/
def copyOk (env : Env) (config : Bool) (files : List (String × String)) : Prop :=
  copyOkFrom env config 0 files

/-- Two results of `glob.Glob` that are the same map: the same error, or the same
pairs visited in a possibly different order. -/
def sameGlob :
    Except String (List (String × String)) → Except String (List (String × String)) → Prop
  | .ok g, .ok g2 => g.Perm g2
  | .error e, .error e2 => e = e2
  | _, _ => False

/-- Two runs over the same, unchanged source tree: files open and read alike, and
all calls of `glob.Glob` for one pattern and destination, in either run and in either
pass, return the same map, each visited in an order of its own. -/
def sameTree (env env2 : Env) : Prop :=
  env2.OpenFile = env.OpenFile ∧ env2.ReadFile = env.ReadFile ∧
  ∀ (c c2 : Bool) (i i2 : Nat) (src dst : String),
    sameGlob (env.Glob c i src dst) (env2.Glob c2 i2 src dst)

/-- The entry `addEmptyDirsRPM` adds for one folder. -/
def emptyDirEntry (dir : String) : rpmpack.RPMFile :=
  { Name := dir, Body := [], Mode := 0o40001, Type_ := .GenericFile }

/-- A source tree with the regular files `/src/a` and `/src/b`, where a pattern
that is a plain path expands to itself. -/
def exampleTree : Env where
  OpenFile := fun p =>
    if p = "/src/a" then .ok ⟨.ok ⟨false, 0o644⟩, .ok [1]⟩
    else if p = "/src/b" then .ok ⟨.ok ⟨false, 0o644⟩, .ok [2]⟩
    else .error "no such file"
  ReadFile := fun _ => .error "no such file"
  Glob := fun _ _ src dst => .ok [(src, dst)]

/-- A source tree with the regular files `/g/x` and `/g/y`, matched by the pattern
`/g/*`; the map that `glob.Glob` returns is visited `y` first or `x` first. -/
def globTree (yFirst : Bool) : Env where
  OpenFile := fun p =>
    if p = "/g/x" then .ok ⟨.ok ⟨false, 0o644⟩, .ok [1]⟩
    else if p = "/g/y" then .ok ⟨.ok ⟨false, 0o644⟩, .ok [2]⟩
    else .error "no such file"
  ReadFile := fun _ => .error "no such file"
  Glob := fun _ _ src dst =>
    if src = "/g/*" then
      .ok (if yFirst then [("/g/y", dst ++ "/y"), ("/g/x", dst ++ "/x")]
        else [("/g/x", dst ++ "/x"), ("/g/y", dst ++ "/y")])
    else .error "no matching files"

/-- A header builder that rejects the metadata values `bad` picks out, and accepts
every other. -/
def rejectingLib (bad : rpmpack.RPMMetaData → Bool) : rpmpack.Lib where
  newRPMError := fun m => if bad m then some "rejected" else none
  Write := fun _ => (none, [])

/-- A package without entries. -/
def exampleRPM : rpmpack.RPM := { metadata := {} }

end rpm

/-! ## Theorems -/

namespace nfpm

/-- C1: `Validate` returns no error exactly when Name, Arch and Version are all
non-empty, and otherwise returns the `ErrFieldEmpty` that names the first empty
field in the order name, arch, version. -/
theorem validate_ok_iff_and_first_empty (info : Info) :
    (Validate info = .ok () ↔ info.Name ≠ "" ∧ info.Arch ≠ "" ∧ info.Version ≠ "") ∧
    (info.Name = "" → Validate info = .error ⟨"name"⟩) ∧
    (info.Name ≠ "" → info.Arch = "" → Validate info = .error ⟨"arch"⟩) ∧
    (info.Name ≠ "" → info.Arch ≠ "" → info.Version = "" →
      Validate info = .error ⟨"version"⟩) := by
  unfold Validate
  by_cases hn : info.Name = "" <;> by_cases ha : info.Arch = "" <;>
    by_cases hv : info.Version = "" <;> simp [hn, ha, hv]

/-- Witness of C1: a descriptor without architecture is rejected for `arch`. -/
theorem validate_ok_iff_and_first_empty_witness :
    Validate { Name := "foo", Version := "1.0.0" } = .error ⟨"arch"⟩ :=
  (validate_ok_iff_and_first_empty { Name := "foo", Version := "1.0.0" }).2.2.1
    (by decide) (by decide)

/-- A successful validation means that the three required fields are non-empty. -/
theorem fields_of_validate_ok (info : Info) (h : Validate info = .ok ()) :
    info.Name ≠ "" ∧ info.Arch ≠ "" ∧ info.Version ≠ "" := by
  revert h
  unfold Validate
  by_cases hn : info.Name = "" <;> by_cases ha : info.Arch = "" <;>
    by_cases hv : info.Version = "" <;> simp [hn, ha, hv]

/-! ### `WithDefaults`: what each branch leaves in the version fields -/

/-- When `NewVersion` fails, `WithDefaults` leaves the four version fields alone. -/
theorem WithDefaults_of_error (info : Info) (e : semver.Error)
    (h : semver.NewVersion info.Version = .error e) :
    (WithDefaults info).Version = info.Version ∧ (WithDefaults info).Epoch = info.Epoch ∧
    (WithDefaults info).Release = info.Release ∧
    (WithDefaults info).Prerelease = info.Prerelease := by
  by_cases hp : info.Platform = "" <;> by_cases hd : info.Description = "" <;>
    simp [WithDefaults, hp, hd, h]

/-- When `NewVersion` succeeds, the version fields of the result. -/
theorem WithDefaults_of_ok (info : Info) (v : semver.Version)
    (h : semver.NewVersion info.Version = .ok v) :
    (WithDefaults info).Version = fmtVersion v.major v.minor v.patch ∧
    (WithDefaults info).Epoch = info.Epoch ∧
    (WithDefaults info).Release =
      (if info.Release = "" ∧ isInt v.pre = true then v.pre else info.Release) ∧
    (WithDefaults info).Prerelease =
      (if info.Prerelease = "" ∧ isInt v.pre = false then v.pre else info.Prerelease) := by
  by_cases hp : info.Platform = "" <;> by_cases hd : info.Description = "" <;>
    by_cases hr : info.Release = "" <;> by_cases hq : info.Prerelease = "" <;>
    cases hi : isInt v.pre <;>
    simp [WithDefaults, hp, hd, h, hr, hq, hi]

end nfpm

/-! ### The `semver` matcher on a well-formed text -/

namespace semver

theorem spanDigits_append (d rest : List Char) (hd : d.all Char.isDigit = true)
    (hrest : ∀ c ∈ rest.head?, Char.isDigit c = false) :
    spanDigits (d ++ rest) = (d, rest) := by
  induction d with
  | nil =>
    cases rest with
    | nil => rfl
    | cons c t =>
      have hc : Char.isDigit c = false := hrest c (by simp)
      simp [spanDigits, hc]
  | cons a d ih =>
    simp only [List.all_cons, Bool.and_eq_true] at hd
    simp [spanDigits, hd.1, ih hd.2]

theorem optDotNum_dot_append (d rest : List Char) (hne : d ≠ [])
    (hd : d.all Char.isDigit = true) (hrest : ∀ c ∈ rest.head?, Char.isDigit c = false) :
    optDotNum ('.' :: (d ++ rest)) = ('.' :: d, rest) := by
  simp [optDotNum, spanDigits_append d rest hd hrest, hne]

/-- Every character of a text whose dot-separated segments are made of allowed
characters is an allowed character or a dot. -/
theorem mem_of_segments_allowed (s : List Char)
    (h : (splitDots s).all (fun seg => seg.all allowed) = true) :
    ∀ c ∈ s, allowed c = true ∨ c = '.' := by
  induction s with
  | nil => simp
  | cons a t ih =>
    intro c hc
    unfold splitDots at h
    by_cases ha : a = '.'
    · simp only [ha, if_true, List.all_cons, List.all_nil, Bool.true_and] at h
      rcases List.mem_cons.1 hc with rfl | hc
      · exact Or.inr ha
      · exact ih h c hc
    · simp only [ha, if_false] at h
      cases hs : splitDots t with
      | nil =>
        rw [hs] at h ih
        simp only [List.all_cons, List.all_nil, Bool.and_true] at h
        rcases List.mem_cons.1 hc with rfl | hc
        · exact Or.inl h
        · exact ih (by simp) c hc
      | cons seg segs =>
        rw [hs] at h ih
        simp only [List.all_cons, Bool.and_eq_true] at h
        rcases List.mem_cons.1 hc with rfl | hc
        · exact Or.inl h.1.1
        · exact ih (by simp [h.1.2, h.2]) c hc

theorem segments_allowed_of_isDotted (s : List Char) (h : isDotted s = true) :
    (splitDots s).all (fun seg => seg.all allowed) = true := by
  unfold isDotted at h
  rw [List.all_eq_true] at h ⊢
  intro seg hseg
  have := h seg hseg
  simp only [Bool.and_eq_true] at this
  exact this.2

theorem isDotted_ne_nil (s : List Char) (h : isDotted s = true) : s ≠ [] := by
  rintro rfl
  simp [isDotted, splitDots] at h

theorem plus_not_mem_of_isDotted (s : List Char) (h : isDotted s = true) : '+' ∉ s := by
  intro hmem
  rcases mem_of_segments_allowed s (segments_allowed_of_isDotted s h) '+' hmem with h1 | h1
  · exact absurd h1 (by decide)
  · exact absurd h1 (by decide)

theorem spanNotPlus_append (p rest : List Char) (hp : '+' ∉ p)
    (hrest : ∀ c ∈ rest.head?, c = '+') :
    spanNotPlus (p ++ rest) = (p, rest) := by
  induction p with
  | nil =>
    cases rest with
    | nil => rfl
    | cons c t =>
      have hc : c = '+' := hrest c (by simp)
      simp [spanNotPlus, hc]
  | cons a p ih =>
    have ha : a ≠ '+' := fun h => hp (by simp [h])
    have hp2 : '+' ∉ p := fun h => hp (List.mem_cons_of_mem _ h)
    simp [spanNotPlus, ha, ih hp2]

theorem validateMetadata_of_isDotted (s : List Char) (h : isDotted s = true) :
    validateMetadata s = .ok () := by
  have := segments_allowed_of_isDotted s h
  unfold validateMetadata onlyAllowed
  simp only [this, if_true]

end semver

namespace nfpm

theorem stripV_digits (d rest : List Char) (hne : d ≠ [])
    (hd : d.all Char.isDigit = true) : semver.stripV (d ++ rest) = d ++ rest := by
  obtain ⟨a, d', rfl⟩ := List.exists_cons_of_ne_nil hne
  have ha : a ≠ 'v' := by
    rintro rfl
    exact absurd hd (by simp [Char.isDigit])
  show semver.stripV (a :: (d' ++ rest)) = _
  unfold semver.stripV
  split
  · rename_i heq
    simp at heq
    exact absurd heq.1 ha
  · rfl

theorem optParts_head (pre build : Option (List Char)) :
    ∀ c ∈ (optPart '-' pre ++ optPart '+' build).head?, c = '-' ∨ c = '+' := by
  cases pre <;> cases build <;> simp [optPart]

theorem matchTail_optParts (pre build : Option (List Char))
    (hpre : ∀ p, pre = some p → semver.isDotted p = true)
    (hbuild : ∀ b, build = some b → semver.isDotted b = true) :
    semver.matchTail (optPart '-' pre ++ optPart '+' build)
      = some (pre.getD [], build.getD []) := by
  cases pre with
  | none =>
    cases build with
    | none => simp [optPart, semver.matchTail]
    | some b => simp [optPart, semver.matchTail, hbuild b rfl]
  | some p =>
    have hp := hpre p rfl
    have hplus := semver.plus_not_mem_of_isDotted p hp
    cases build with
    | none =>
      have hs := semver.spanNotPlus_append p [] hplus (by simp)
      rw [List.append_nil] at hs
      simp [optPart, semver.matchTail, hs, hp]
    | some b =>
      have hs := semver.spanNotPlus_append p ('+' :: b) hplus (by simp)
      simp [optPart, semver.matchTail, hs, hp, hbuild b rfl]

theorem findStringSubmatch_semverText (dM dm dp : List Char) (pre build : Option (List Char))
    (hM : dM ≠ [] ∧ dM.all Char.isDigit = true)
    (hm : dm ≠ [] ∧ dm.all Char.isDigit = true)
    (hp : dp ≠ [] ∧ dp.all Char.isDigit = true)
    (hpre : ∀ p, pre = some p → semver.isDotted p = true)
    (hbuild : ∀ b, build = some b → semver.isDotted b = true) :
    semver.FindStringSubmatch (semverText dM dm dp pre build).data
      = some ⟨dM, '.' :: dm, '.' :: dp, pre.getD [], build.getD []⟩ := by
  have htail : ∀ c ∈ (optPart '-' pre ++ optPart '+' build).head?, Char.isDigit c = false := by
    intro c hc
    rcases optParts_head pre build c hc with rfl | rfl <;> decide
  have h3 := semver.optDotNum_dot_append dp _ hp.1 hp.2 htail
  have h2 := semver.optDotNum_dot_append dm
    ('.' :: (dp ++ (optPart '-' pre ++ optPart '+' build))) hm.1 hm.2
    (by intro c hc; simp at hc; subst hc; decide)
  have h1 := semver.spanDigits_append dM
    ('.' :: (dm ++ '.' :: (dp ++ (optPart '-' pre ++ optPart '+' build)))) hM.2
    (by intro c hc; simp at hc; subst hc; decide)
  have h0 := stripV_digits dM
    ('.' :: (dm ++ '.' :: (dp ++ (optPart '-' pre ++ optPart '+' build)))) hM.1 hM.2
  unfold semver.FindStringSubmatch semverText
  simp only [h0, h1, h2, h3, matchTail_optParts pre build hpre hbuild]
  simp [hM.1]

theorem parseUint_digits (d : List Char) (hne : d ≠ []) (hd : d.all Char.isDigit = true)
    (hlt : strconv.digitsVal d < 2 ^ 64) : strconv.ParseUint d = some (strconv.digitsVal d) := by
  unfold strconv.ParseUint
  simp only [hne, hd, hlt, if_true, if_false]

theorem newVersion_semverText (dM dm dp : List Char) (pre build : Option (List Char))
    (hM : dM ≠ [] ∧ dM.all Char.isDigit = true ∧ strconv.digitsVal dM < 2 ^ 64)
    (hm : dm ≠ [] ∧ dm.all Char.isDigit = true ∧ strconv.digitsVal dm < 2 ^ 64)
    (hp : dp ≠ [] ∧ dp.all Char.isDigit = true ∧ strconv.digitsVal dp < 2 ^ 64)
    (hpre : ∀ p, pre = some p →
      semver.isDotted p = true ∧ semver.validatePrerelease p = .ok ())
    (hbuild : ∀ b, build = some b → semver.isDotted b = true) :
    semver.NewVersion (semverText dM dm dp pre build)
      = .ok ⟨strconv.digitsVal dM, strconv.digitsVal dm, strconv.digitsVal dp,
          String.mk (pre.getD []), String.mk (build.getD []),
          semverText dM dm dp pre build⟩ := by
  have hf := findStringSubmatch_semverText dM dm dp pre build ⟨hM.1, hM.2.1⟩ ⟨hm.1, hm.2.1⟩
    ⟨hp.1, hp.2.1⟩ (fun p h => (hpre p h).1) hbuild
  have hv1 : (if pre.getD [] ≠ [] then semver.validatePrerelease (pre.getD []) else .ok ())
      = .ok () := by
    cases pre with
    | none => simp
    | some p => simp [(hpre p rfl).2]
  have hv2 : (if build.getD [] ≠ [] then semver.validateMetadata (build.getD []) else .ok ())
      = .ok () := by
    cases build with
    | none => simp
    | some b => simp [semver.validateMetadata_of_isDotted b (hbuild b rfl)]
  unfold semver.NewVersion
  simp only [hf, semver.parseGroup, parseUint_digits dM hM.1 hM.2.1 hM.2.2,
    parseUint_digits dm hm.1 hm.2.1 hm.2.2, parseUint_digits dp hp.1 hp.2.1 hp.2.2, hv1, hv2]

/-- Counterexample to C2 as stated: `18446744073709551616.0.0-rc1` has the shape
`major.minor.patch-prerelease`, its major does not fit in 64 bits, `NewVersion`
rejects it and `WithDefaults` returns it verbatim, prerelease included, instead of
the canonical `18446744073709551616.0.0`. -/
theorem withDefaults_version_canonical_counterexample :
    semverText "18446744073709551616".data "0".data "0".data (some "rc1".data) none
      = "18446744073709551616.0.0-rc1" ∧
    strictShape "18446744073709551616.0.0-rc1" = true ∧
    (WithDefaults { Version := "18446744073709551616.0.0-rc1" }).Version
      = "18446744073709551616.0.0-rc1" ∧
    fmtVersion (strconv.digitsVal "18446744073709551616".data) (strconv.digitsVal "0".data)
      (strconv.digitsVal "0".data) = "18446744073709551616.0.0" := by
  decide

/-- C2 (amended): for every Info whose Version is the text
`major.minor.patch[-prerelease][+build]` with major, minor and patch non-empty digit
strings of value below `2 ^ 64`, and with a prerelease and a build that `semver`
accepts, `WithDefaults` returns Version equal to the canonical decimal text of the
three numbers, the prerelease and build parts removed. -/
theorem withDefaults_version_canonical (info : Info) (dM dm dp : List Char)
    (pre build : Option (List Char))
    (hM : dM ≠ [] ∧ dM.all Char.isDigit = true ∧ strconv.digitsVal dM < 2 ^ 64)
    (hm : dm ≠ [] ∧ dm.all Char.isDigit = true ∧ strconv.digitsVal dm < 2 ^ 64)
    (hp : dp ≠ [] ∧ dp.all Char.isDigit = true ∧ strconv.digitsVal dp < 2 ^ 64)
    (hpre : ∀ p, pre = some p →
      semver.isDotted p = true ∧ semver.validatePrerelease p = .ok ())
    (hbuild : ∀ b, build = some b → semver.isDotted b = true)
    (hv : info.Version = semverText dM dm dp pre build) :
    (WithDefaults info).Version
      = fmtVersion (strconv.digitsVal dM) (strconv.digitsVal dm) (strconv.digitsVal dp) := by
  have h := newVersion_semverText dM dm dp pre build hM hm hp hpre hbuild
  rw [← hv] at h
  exact (WithDefaults_of_ok info _ h).1

/-- Witness of C2: `01.2.3-beta.1+b5` becomes `1.2.3`. -/
theorem withDefaults_version_canonical_witness :
    (WithDefaults { Version := "01.2.3-beta.1+b5" }).Version = "1.2.3" :=
  withDefaults_version_canonical { Version := "01.2.3-beta.1+b5" }
    "01".data "2".data "3".data (some "beta.1".data) (some "b5".data)
    (by decide) (by decide) (by decide)
    (by intro p h; cases h; decide) (by intro b h; cases h; decide) (by decide)

/-- C7: `WithDefaults` returns Platform `linux` when the input Platform is empty and
Description `no description given` when the input Description is empty, and returns
a non-empty Platform or Description unchanged. -/
theorem withDefaults_platform_description (info : Info) :
    (info.Platform = "" → (WithDefaults info).Platform = "linux") ∧
    (info.Description = "" → (WithDefaults info).Description = "no description given") ∧
    (info.Platform ≠ "" → (WithDefaults info).Platform = info.Platform) ∧
    (info.Description ≠ "" → (WithDefaults info).Description = info.Description) := by
  by_cases hp : info.Platform = "" <;> by_cases hd : info.Description = "" <;>
    cases h : semver.NewVersion info.Version <;>
    by_cases hr : info.Release = "" <;> by_cases hq : info.Prerelease = "" <;>
    simp [WithDefaults, hp, hd, h, hr, hq] <;> split_ifs <;> simp_all

/-- Witness of C7: an empty descriptor gets both defaults. -/
theorem withDefaults_platform_description_witness :
    (WithDefaults {}).Platform = "linux" ∧
    (WithDefaults {}).Description = "no description given" :=
  ⟨(withDefaults_platform_description {}).1 (by decide),
   (withDefaults_platform_description {}).2.1 (by decide)⟩

/-- A purely numeric tag below `2 ^ 63` is one that `strconv.Atoi` accepts. -/
theorem isInt_of_purelyNumeric (t : String) (hnum : purelyNumeric t = true)
    (hlt : strconv.digitsVal t.data < 2 ^ 63) : isInt t = true := by
  unfold purelyNumeric at hnum
  simp only [Bool.and_eq_true, decide_eq_true_eq] at hnum
  obtain ⟨hne, hall⟩ := hnum
  have hlt64 : strconv.digitsVal t.data < 2 ^ 64 := by omega
  have hpu := parseUint_digits t.data hne hall hlt64
  obtain ⟨c, r, hcr⟩ := List.exists_cons_of_ne_nil hne
  have hc : c.isDigit = true := by
    rw [hcr] at hall
    simp only [List.all_cons, Bool.and_eq_true] at hall
    exact hall.1
  have hminus : c ≠ '-' := by
    rintro rfl
    exact absurd hc (by decide)
  have hplus : c ≠ '+' := by
    rintro rfl
    exact absurd hc (by decide)
  unfold isInt
  rw [hcr] at hpu hlt ⊢
  unfold strconv.Atoi
  split
  · rename_i heq; cases heq
  · rename_i heq
    simp only [List.cons.injEq] at heq
    exact absurd heq.1 hminus
  · rename_i heq
    simp only [List.cons.injEq] at heq
    exact absurd heq.1 hplus
  · rename_i c2 t2 _ _ heq
    simp only [List.cons.injEq] at heq
    obtain ⟨rfl, rfl⟩ := heq
    rw [hpu]
    simpa using hlt

/-- Counterexample to C3 as stated: the purely numeric tag `99999999999999999999`
does not become the Release (it lands in Prerelease), and the tag `-5`, which is
not purely numeric, becomes the Release and not the Prerelease. -/
theorem withDefaults_prerelease_tag_counterexample :
    (purelyNumeric "99999999999999999999" = true ∧
      (semver.NewVersion "1.0.0-99999999999999999999").map (·.pre)
        = .ok "99999999999999999999" ∧
      (WithDefaults { Version := "1.0.0-99999999999999999999" }).Release = "" ∧
      (WithDefaults { Version := "1.0.0-99999999999999999999" }).Prerelease
        = "99999999999999999999") ∧
    (purelyNumeric "-5" = false ∧
      (semver.NewVersion "1.0.0--5").map (·.pre) = .ok "-5" ∧
      (WithDefaults { Version := "1.0.0--5" }).Release = "-5" ∧
      (WithDefaults { Version := "1.0.0--5" }).Prerelease = "") := by
  decide

/-- C3 (amended): for an Info with empty Release and empty Prerelease whose Version
`NewVersion` parses with prerelease tag `v.pre`: if `strconv.Atoi` accepts the tag
(`isInt`) then Release is the tag and Prerelease stays empty, otherwise Prerelease
is the tag and Release stays empty; a non-empty tag never lands in both fields; and
a purely numeric tag of value below `2 ^ 63` is one that goes to Release. -/
theorem withDefaults_prerelease_tag (info : Info) (v : semver.Version)
    (hr : info.Release = "") (hq : info.Prerelease = "")
    (h : semver.NewVersion info.Version = .ok v) :
    (isInt v.pre = true →
      (WithDefaults info).Release = v.pre ∧ (WithDefaults info).Prerelease = "") ∧
    (isInt v.pre = false →
      (WithDefaults info).Prerelease = v.pre ∧ (WithDefaults info).Release = "") ∧
    (v.pre ≠ "" →
      ¬ ((WithDefaults info).Release = v.pre ∧ (WithDefaults info).Prerelease = v.pre)) ∧
    (purelyNumeric v.pre = true → strconv.digitsVal v.pre.data < 2 ^ 63 →
      (WithDefaults info).Release = v.pre ∧ (WithDefaults info).Prerelease = "") := by
  obtain ⟨-, -, hR, hP⟩ := WithDefaults_of_ok info v h
  rw [hR, hP, hr, hq]
  refine ⟨?_, ?_, ?_, ?_⟩
  · intro hi
    simp [hi]
  · intro hi
    simp [hi]
  · intro hne
    cases hi : isInt v.pre <;> simp
    · intro heq; exact hne heq.symm
    · intro heq; exact hne heq.symm
  · intro hnum hlt
    simp [isInt_of_purelyNumeric v.pre hnum hlt]

/-- Witness of C3: tag `7` becomes the Release, and only the Release. -/
theorem withDefaults_prerelease_tag_witness :
    (WithDefaults { Version := "1.0.0-7" }).Release = "7" ∧
    (WithDefaults { Version := "1.0.0-7" }).Prerelease = "" :=
  (withDefaults_prerelease_tag { Version := "1.0.0-7" }
    ⟨1, 0, 0, "7", "", "1.0.0-7"⟩ (by decide) (by decide) (by decide)).1 (by decide)

/-- Counterexample to C9 as stated: `1.2` and `v1.0.0-beta` do not have the strict
shape `major.minor.patch[-prerelease][+build]`, yet `WithDefaults` rewrites the
Version of both and fills Prerelease from the second. -/
theorem withDefaults_not_strict_counterexample :
    (strictShape "1.2" = false ∧ (WithDefaults { Version := "1.2" }).Version = "1.2.0") ∧
    (strictShape "v1.0.0-beta" = false ∧
      (WithDefaults { Version := "v1.0.0-beta" }).Version = "1.0.0" ∧
      (WithDefaults { Version := "v1.0.0-beta" }).Prerelease = "beta") := by
  decide

/-- C9 (amended): for every Info whose Version `semver.NewVersion` rejects,
`WithDefaults` returns Version verbatim and leaves Epoch, Release and Prerelease
unchanged. -/
theorem withDefaults_unparsed_verbatim (info : Info) (e : semver.Error)
    (h : semver.NewVersion info.Version = .error e) :
    (WithDefaults info).Version = info.Version ∧ (WithDefaults info).Epoch = info.Epoch ∧
    (WithDefaults info).Release = info.Release ∧
    (WithDefaults info).Prerelease = info.Prerelease := by
  by_cases hp : info.Platform = "" <;> by_cases hd : info.Description = "" <;>
    simp [WithDefaults, hp, hd, h]

/-- Witness of C9: `1.0.0.1` is rejected and passes through with its Release. -/
theorem withDefaults_unparsed_verbatim_witness :
    (WithDefaults { Version := "1.0.0.1", Release := "3" }).Version = "1.0.0.1" ∧
    (WithDefaults { Version := "1.0.0.1", Release := "3" }).Epoch = "" ∧
    (WithDefaults { Version := "1.0.0.1", Release := "3" }).Release = "3" ∧
    (WithDefaults { Version := "1.0.0.1", Release := "3" }).Prerelease = "" :=
  withDefaults_unparsed_verbatim { Version := "1.0.0.1", Release := "3" }
    .ErrInvalidSemVer (by decide)



end nfpm

/-! ### The format registry -/

namespace nfpm

theorem registerAll_snoc {P : Type} (calls : List (String × P)) (c : String × P) :
    registerAll (calls ++ [c]) = Register c.1 c.2 (registerAll calls) := by
  simp [registerAll, List.foldl_append]

/-- After a sequence of `Register` calls, `Get f` is decided by the last call for `f`. -/
theorem get_registerAll {P : Type} (calls : List (String × P)) (f : String) :
    Get f (registerAll calls) =
      match calls.reverse.find? (fun c => c.1 = f) with
      | some c => .ok c.2
      | none => .error ⟨f⟩ := by
  induction calls using List.reverseRecOn with
  | nil => rfl
  | append_singleton calls c ih =>
    rw [registerAll_snoc, List.reverse_append, List.reverse_singleton, List.singleton_append,
      List.find?_cons]
    by_cases hc : c.1 = f
    · simp [hc, Get, Register]
    · have hc2 : ¬ f = c.1 := fun h => hc h.symm
      simp only [hc, decide_False]
      rw [← ih]
      simp [Get, Register, hc2]

/-- C6: after any sequence of `Register` calls, `Get f` returns with no error the
packager of the most recent `Register f _` call, it returns `ErrNoPackager` carrying
`f` exactly when no `Register f _` call has occurred, and `Register f p` does not
change what `Get` returns for any other format name. -/
theorem get_register_most_recent {P : Type} (calls : List (String × P)) (f : String) :
    (∀ before after p, calls = before ++ (f, p) :: after → (∀ c ∈ after, c.1 ≠ f) →
      Get f (registerAll calls) = .ok p) ∧
    (Get f (registerAll calls) = .error ⟨f⟩ ↔ ∀ c ∈ calls, c.1 ≠ f) ∧
    ((∃ e, Get f (registerAll calls) = .error e) ↔ ∀ c ∈ calls, c.1 ≠ f) ∧
    (∀ (m : Packagers P) (g : String) (p : P), g ≠ f → Get g (Register f p m) = Get g m) := by
  refine ⟨?_, ?_, ?_, ?_⟩
  · intro before after p hcalls hafter
    rw [get_registerAll, hcalls, List.reverse_append, List.reverse_cons, List.append_assoc,
      List.find?_append]
    have h1 : after.reverse.find? (fun c => decide (c.1 = f)) = none := by
      rw [List.find?_eq_none]
      intro c hc
      simpa using hafter c (List.mem_reverse.1 hc)
    simp [h1]
  · rw [get_registerAll]
    cases h : calls.reverse.find? (fun c => decide (c.1 = f)) with
    | none =>
      rw [List.find?_eq_none] at h
      simp only [true_iff]
      intro c hc
      simpa using h c (List.mem_reverse.2 hc)
    | some c =>
      have hf := List.find?_some h
      have hm := List.mem_reverse.1 (List.mem_of_find?_eq_some h)
      constructor
      · intro he
        cases he
      · intro hall
        exact absurd (by simpa using hf) (hall c hm)
  · rw [get_registerAll]
    cases h : calls.reverse.find? (fun c => decide (c.1 = f)) with
    | none =>
      rw [List.find?_eq_none] at h
      constructor
      · intro _ c hc
        simpa using h c (List.mem_reverse.2 hc)
      · intro _
        exact ⟨⟨f⟩, rfl⟩
    | some c =>
      have hf := List.find?_some h
      have hm := List.mem_reverse.1 (List.mem_of_find?_eq_some h)
      constructor
      · rintro ⟨e, he⟩
        cases he
      · intro hall
        exact absurd (by simpa using hf) (hall c hm)
  · intro m g p hg
    simp [Get, Register, hg]

/-- Witness of C6: `rpm` registered twice, `deb` once; `Get "rpm"` is the second. -/
theorem get_register_most_recent_witness :
    Get "rpm" (registerAll [("rpm", 1), ("deb", 2), ("rpm", 3)]) = .ok 3 :=
  (get_register_most_recent [("rpm", 1), ("deb", 2), ("rpm", 3)] "rpm").1
    [("rpm", 1), ("deb", 2)] [] 3 rfl (by simp)

end nfpm

/-! ### `strings.SplitN` at the first separator -/

namespace strings

theorem cut_append (sep : Char) (a b : List Char) (ha : sep ∉ a) :
    cut sep (a ++ sep :: b) = some (a, b) := by
  induction a with
  | nil => simp [cut]
  | cons c a ih =>
    have hc : c ≠ sep := fun h => ha (by simp [h])
    have ha2 : sep ∉ a := fun h => ha (List.mem_cons_of_mem _ h)
    simp [cut, hc, ih ha2]

theorem cut_eq_none (sep : Char) (s : List Char) (hs : sep ∉ s) : cut sep s = none := by
  induction s with
  | nil => rfl
  | cons c s ih =>
    have hc : c ≠ sep := fun h => hs (by simp [h])
    have hs2 : sep ∉ s := fun h => hs (List.mem_cons_of_mem _ h)
    simp [cut, hc, ih hs2]

/-- `SplitN(s, sep, 2)` has one or two elements. -/
theorem SplitN_two (sep : Char) (s : List Char) :
    SplitN sep 2 s = [s] ∨ ∃ a b, SplitN sep 2 s = [a, b] := by
  unfold SplitN
  cases cut sep s with
  | none => exact Or.inl rfl
  | some p => exact Or.inr ⟨p.1, p.2, by simp [SplitN]⟩

end strings

/-! ### The RPM packager: what reaches the header builder -/

namespace rpm

open nfpm

theorem ensureValidArch_cases (info : Info) :
    (info.Arch = "amd64" ∧ ensureValidArch info = { info with Arch := "x86_64" }) ∨
    (info.Arch = "386" ∧ ensureValidArch info = { info with Arch := "i386" }) ∨
    (info.Arch = "arm64" ∧ ensureValidArch info = { info with Arch := "aarch64" }) ∨
    (info.Arch ≠ "amd64" ∧ info.Arch ≠ "386" ∧ info.Arch ≠ "arm64" ∧
      ensureValidArch info = info) := by
  by_cases h1 : info.Arch = "amd64"
  · exact Or.inl ⟨h1, by simp [ensureValidArch, archToRPM, List.lookup, h1]⟩
  · by_cases h2 : info.Arch = "386"
    · exact Or.inr (Or.inl ⟨h2, by simp [ensureValidArch, archToRPM, List.lookup, h2]⟩)
    · by_cases h3 : info.Arch = "arm64"
      · exact Or.inr (Or.inr (Or.inl
          ⟨h3, by simp [ensureValidArch, archToRPM, List.lookup, h3]⟩))
      · refine Or.inr (Or.inr (Or.inr ⟨h1, h2, h3, ?_⟩))
        have b1 : (info.Arch == "amd64") = false := by simp [h1]
        have b2 : (info.Arch == "386") = false := by simp [h2]
        have b3 : (info.Arch == "arm64") = false := by simp [h3]
        simp only [ensureValidArch, archToRPM, List.lookup, b1, b2, b3]

/-- The translation of the architecture does not change the outcome of validation. -/
theorem validate_ensureValidArch (info : Info) :
    Validate (ensureValidArch info) = Validate info := by
  rcases ensureValidArch_cases info with ⟨h, he⟩ | ⟨h, he⟩ | ⟨h, he⟩ | ⟨-, -, -, he⟩ <;>
    rw [he] <;> simp [Validate, h]

theorem ensureValidArch_version (info : Info) :
    (ensureValidArch info).Version = info.Version := by
  rcases ensureValidArch_cases info with ⟨-, he⟩ | ⟨-, he⟩ | ⟨-, he⟩ | ⟨-, -, -, he⟩ <;>
    rw [he]

theorem vInfo_of_hyphen (info : Info) (a b : List Char)
    (hv : info.Version = String.mk (a ++ '-' :: b)) (ha : '-' ∉ a) :
    vInfo info = [String.mk a, String.mk b, ""] := by
  simp [vInfo, hv, strings.SplitN, strings.cut_append '-' a b ha]

theorem vInfo_of_no_hyphen (info : Info) (hv : '-' ∉ info.Version.data) :
    vInfo info = [info.Version, ""] := by
  simp [vInfo, strings.SplitN, strings.cut_eq_none '-' _ hv]

/-- Both index reads of `vInfo` are in range. -/
theorem vInfo_index (info : Info) :
    ∃ v r, (vInfo info)[0]? = some v ∧ (vInfo info)[1]? = some r := by
  unfold vInfo
  rcases strings.SplitN_two '-' info.Version.data with h | ⟨a, b, h⟩ <;> rw [h] <;> simp

/-- The metadata literal, once the two index reads are known. -/
theorem metaData_of_index (info : Info) (v r : String)
    (h0 : (vInfo info)[0]? = some v) (h1 : (vInfo info)[1]? = some r) :
    metaData info = some {
      Name := info.Name, Description := info.Description, Version := v, Release := r,
      Arch := info.Arch, Platform := info.Platform, Licence := info.License,
      URL := info.Homepage, Vendor := info.Vendor, Packager := info.Maintainer,
      Provides := info.Provides, Depends := info.Depends, Replaces := info.Replaces,
      Suggests := info.Suggests, Conflicts := info.Conflicts,
      Compressor := info.RPM.Compression } := by
  unfold metaData
  rw [h0, h1]

/-- A valid Info reaches `rpmpack.NewRPM`, with the metadata of the translated Info. -/
theorem headerArgs_of_valid (info : Info) (hvalid : Validate info = .ok ()) :
    ∃ v r, (vInfo (ensureValidArch info))[0]? = some v ∧
      (vInfo (ensureValidArch info))[1]? = some r ∧
      metaData (ensureValidArch info) = some {
        Name := (ensureValidArch info).Name,
        Description := (ensureValidArch info).Description, Version := v, Release := r,
        Arch := (ensureValidArch info).Arch, Platform := (ensureValidArch info).Platform,
        Licence := (ensureValidArch info).License, URL := (ensureValidArch info).Homepage,
        Vendor := (ensureValidArch info).Vendor, Packager := (ensureValidArch info).Maintainer,
        Provides := (ensureValidArch info).Provides, Depends := (ensureValidArch info).Depends,
        Replaces := (ensureValidArch info).Replaces,
        Suggests := (ensureValidArch info).Suggests,
        Conflicts := (ensureValidArch info).Conflicts,
        Compressor := (ensureValidArch info).RPM.Compression } ∧
      headerArgs info = .ok {
        Name := (ensureValidArch info).Name,
        Description := (ensureValidArch info).Description, Version := v, Release := r,
        Arch := (ensureValidArch info).Arch, Platform := (ensureValidArch info).Platform,
        Licence := (ensureValidArch info).License, URL := (ensureValidArch info).Homepage,
        Vendor := (ensureValidArch info).Vendor, Packager := (ensureValidArch info).Maintainer,
        Provides := (ensureValidArch info).Provides, Depends := (ensureValidArch info).Depends,
        Replaces := (ensureValidArch info).Replaces,
        Suggests := (ensureValidArch info).Suggests,
        Conflicts := (ensureValidArch info).Conflicts,
        Compressor := (ensureValidArch info).RPM.Compression } := by
  obtain ⟨v, r, h0, h1⟩ := vInfo_index (ensureValidArch info)
  have hm := metaData_of_index (ensureValidArch info) v r h0 h1
  refine ⟨v, r, h0, h1, hm, ?_⟩
  unfold headerArgs
  rw [validate_ensureValidArch, hvalid]
  simp only [hm]

/-- C8: for every Info whose Name, Arch or Version is empty, every source tree and
every header builder, `Package` returns the `ErrFieldEmpty` that `Validate` produces,
before the package is constructed: it makes no access to the source tree and writes
no byte to `w`. -/
theorem package_validation_error_first (env : Env) (lib : rpmpack.Lib) (info : Info)
    (hempty : info.Name = "" ∨ info.Arch = "" ∨ info.Version = "") :
    ∃ e, Validate info = .error e ∧
      Package env lib info = ⟨some (.fieldEmpty e), [], []⟩ := by
  have hne : Validate info ≠ .ok () := by
    intro h
    have := fields_of_validate_ok info h
    rcases hempty with h1 | h1 | h1
    · exact this.1 h1
    · exact this.2.1 h1
    · exact this.2.2 h1
  cases hv : Validate info with
  | ok u => exact absurd hv hne
  | error e =>
    refine ⟨e, rfl, ?_⟩
    unfold Package headerArgs
    rw [validate_ensureValidArch, hv]

/-- Witness of C8: a descriptor without version stops at validation. -/
theorem package_validation_error_first_witness :
    ∃ e, Validate { Name := "foo", Arch := "amd64" } = .error e ∧
      Package exampleEnv exampleLib { Name := "foo", Arch := "amd64" }
        = ⟨some (.fieldEmpty e), [], []⟩ :=
  package_validation_error_first exampleEnv exampleLib { Name := "foo", Arch := "amd64" }
    (Or.inr (Or.inr rfl))

/-- Setting the Epoch commutes with the translation of the architecture. -/
theorem ensureValidArch_epoch (info : Info) (e : String) :
    ensureValidArch { info with Epoch := e } = { ensureValidArch info with Epoch := e } := by
  rcases ensureValidArch_cases info with ⟨h, he⟩ | ⟨h, he⟩ | ⟨h, he⟩ | ⟨h1, h2, h3, he⟩
  · rw [he]; simp [ensureValidArch, archToRPM, List.lookup, h]
  · rw [he]; simp [ensureValidArch, archToRPM, List.lookup, h]
  · rw [he]; simp [ensureValidArch, archToRPM, List.lookup, h]
  · rw [he]
    have b1 : (info.Arch == "amd64") = false := by simp [h1]
    have b2 : (info.Arch == "386") = false := by simp [h2]
    have b3 : (info.Arch == "arm64") = false := by simp [h3]
    simp only [ensureValidArch, archToRPM, List.lookup, b1, b2, b3]

/-- Counterexample to C10 as stated: with Epoch `2` the metadata handed to the header
builder is Version `1.0.0`, Release `1` and nothing of the epoch, the same metadata
as with an empty Epoch. -/
theorem package_epoch_counterexample :
    headerArgs { Name := "foo", Arch := "amd64", Version := "1.0.0-1", Epoch := "2" }
      = .ok { Name := "foo", Version := "1.0.0", Release := "1", Arch := "x86_64" } ∧
    headerArgs { Name := "foo", Arch := "amd64", Version := "1.0.0-1", Epoch := "2" }
      = headerArgs { Name := "foo", Arch := "amd64", Version := "1.0.0-1", Epoch := "" } := by
  decide

end rpm

/-! ### The copy loops: what they add to the package -/

namespace rpm

open nfpm

/-- The step `copyToRPM` in terms of the entry of its source file. -/
theorem copyToRPM_eq (env : Env) (b : Build) (src dst : String) (config : Bool) :
    copyToRPM env b src dst config =
      match fileEntry env src dst config with
      | .error e => (some e, { b with ops := b.ops ++ [.openFile src] })
      | .ok none => (none, { b with ops := b.ops ++ [.openFile src] })
      | .ok (some f) => (none, { rpm := b.rpm.AddFile f, ops := b.ops ++ [.openFile src] }) := by
  unfold copyToRPM fileEntry
  cases env.OpenFile src with
  | error msg => rfl
  | ok file =>
    dsimp only
    cases file.Stat with
    | error msg => rfl
    | ok fi =>
      dsimp only
      by_cases hd : fi.IsDir = true
      · simp only [hd, if_true]
      · simp only [hd, if_false]
        cases file.ReadAll with
        | error msg => rfl
        | ok data => cases config <;> rfl

theorem addFiles_nil (r : rpmpack.RPM) : r.addFiles [] = r := by
  cases r
  simp [rpmpack.RPM.addFiles]

theorem AddFile_eq_addFiles (r : rpmpack.RPM) (f : rpmpack.RPMFile) :
    r.AddFile f = r.addFiles [f] := rfl

theorem addFiles_addFiles (r : rpmpack.RPM) (a b : List rpmpack.RPMFile) :
    (r.addFiles a).addFiles b = r.addFiles (a ++ b) := by
  simp [rpmpack.RPM.addFiles, List.append_assoc]

theorem addFiles_files (r : rpmpack.RPM) (a : List rpmpack.RPMFile) :
    (r.addFiles a).files = r.files ++ a := rfl

/-- The inner loop only appends entries; it returns no error exactly when no source
file fails, and then it has appended the entries of the glob result in loop order. -/
theorem copyGlobbed_spec (env : Env) (config : Bool) (globbed : List (String × String)) :
    ∀ b : Build, ∃ added,
      (copyGlobbed env config b globbed).2.rpm = b.rpm.addFiles added ∧
      ((copyGlobbed env config b globbed).1 = none ↔ globbedOk env config globbed) ∧
      ((copyGlobbed env config b globbed).1 = none →
        added = globbedEntries env config globbed) := by
  induction globbed with
  | nil =>
    intro b
    exact ⟨[], by simp [copyGlobbed, addFiles_nil], by simp [copyGlobbed, globbedOk],
      by simp [globbedEntries]⟩
  | cons p rest ih =>
    intro b
    obtain ⟨src, dst⟩ := p
    unfold copyGlobbed
    rw [copyToRPM_eq]
    cases hfe : fileEntry env src dst config with
    | error e =>
      refine ⟨[], by simp [addFiles_nil], ?_, by simp⟩
      simp only [false_iff, reduceCtorEq]
      intro hok
      obtain ⟨o, ho⟩ := hok (src, dst) (by simp)
      rw [hfe] at ho
      cases ho
    | ok o =>
      cases o with
      | none =>
        obtain ⟨added, h1, h2, h3⟩ := ih { b with ops := b.ops ++ [.openFile src] }
        refine ⟨added, ?_, ?_, ?_⟩
        · dsimp only
          exact h1
        · dsimp only
          have hiff : globbedOk env config ((src, dst) :: rest) ↔ globbedOk env config rest := by
            unfold globbedOk
            constructor
            · intro h q hq
              exact h q (List.mem_cons_of_mem _ hq)
            · intro h q hq
              rcases List.mem_cons.1 hq with rfl | hq
              · exact ⟨none, hfe⟩
              · exact h q hq
          rw [hiff, ← h2]
        · dsimp only
          intro hnone
          have hent : globbedEntries env config ((src, dst) :: rest)
              = globbedEntries env config rest := by
            simp [globbedEntries, entryOf, hfe]
          rw [hent]
          exact h3 hnone
      | some f =>
        obtain ⟨added, h1, h2, h3⟩ :=
          ih { rpm := b.rpm.AddFile f, ops := b.ops ++ [.openFile src] }
        refine ⟨f :: added, ?_, ?_, ?_⟩
        · dsimp only
          have h1b : (copyGlobbed env config
              { rpm := b.rpm.AddFile f, ops := b.ops ++ [.openFile src] } rest).2.rpm
              = b.rpm.addFiles (f :: added) := by
            rw [h1, AddFile_eq_addFiles, addFiles_addFiles]
            rfl
          exact h1b
        · dsimp only
          have hiff : globbedOk env config ((src, dst) :: rest) ↔ globbedOk env config rest := by
            unfold globbedOk
            constructor
            · intro h q hq
              exact h q (List.mem_cons_of_mem _ hq)
            · intro h q hq
              rcases List.mem_cons.1 hq with rfl | hq
              · exact ⟨some f, hfe⟩
              · exact h q hq
          rw [hiff, ← h2]
        · dsimp only
          intro hnone
          have hent : globbedEntries env config ((src, dst) :: rest)
              = f :: globbedEntries env config rest := by
            simp [globbedEntries, entryOf, hfe]
          rw [hent, h3 hnone]

/-- The outer loop only appends entries; it returns no error exactly when every
pattern expands and no expanded file fails, and then it has appended the entries of
the files map in loop order. -/
theorem copy_spec (env : Env) (config : Bool) (files : List (String × String)) :
    ∀ (i : Nat) (b : Build), ∃ added,
      (copy env config i b files).2.rpm = b.rpm.addFiles added ∧
      ((copy env config i b files).1 = none ↔ copyOkFrom env config i files) ∧
      ((copy env config i b files).1 = none → added = copyEntriesFrom env config i files) := by
  induction files with
  | nil =>
    intro i b
    exact ⟨[], by simp [copy, addFiles_nil], by simp [copy, copyOkFrom],
      by simp [copyEntriesFrom]⟩
  | cons p rest ih =>
    intro i b
    obtain ⟨srcglob, dstroot⟩ := p
    unfold copy copyOkFrom copyEntriesFrom
    dsimp only
    cases hg : env.Glob config i srcglob dstroot with
    | error msg =>
      refine ⟨[], by simp [addFiles_nil], ?_, by simp⟩
      simp
    | ok globbed =>
      dsimp only
      obtain ⟨added1, g1, g2, g3⟩ := copyGlobbed_spec env config globbed
        { b with ops := b.ops ++ [.glob srcglob dstroot] }
      rcases hcg : copyGlobbed env config
        { b with ops := b.ops ++ [.glob srcglob dstroot] } globbed with ⟨err, b2⟩
      rw [hcg] at g1 g2 g3
      cases err with
      | some e =>
        refine ⟨added1, g1, ?_, by simp⟩
        simp only [reduceCtorEq, false_iff, not_and]
        rintro ⟨g, hg2, hok⟩
        cases hg2
        exact absurd (g2.2 hok) (by simp)
      | none =>
        dsimp only at g1 g2 g3 ⊢
        obtain ⟨added2, c1, c2, c3⟩ := ih (i + 1) b2
        refine ⟨added1 ++ added2, ?_, ?_, ?_⟩
        · rw [c1, g1, addFiles_addFiles]
        · rw [c2]
          constructor
          · intro h
            exact ⟨⟨globbed, rfl, g2.1 rfl⟩, h⟩
          · intro h
            exact h.2
        · intro hnone
          rw [g3 rfl, c3 hnone]
          simp [patternEntries, hg]

/-- The two copy passes only append entries; `createFilesInsideRPM` returns no error
exactly when both maps copy without error, and then it has appended the entries of
Files followed by the entries of ConfigFiles. -/
theorem createFilesInsideRPM_spec (env : Env) (info : Info) (b : Build) :
    ∃ added,
      (createFilesInsideRPM env info b).2.rpm = b.rpm.addFiles added ∧
      ((createFilesInsideRPM env info b).1 = none ↔
        copyOk env false info.Files ∧ copyOk env true info.ConfigFiles) ∧
      ((createFilesInsideRPM env info b).1 = none →
        added = copyEntries env false info.Files ++ copyEntries env true info.ConfigFiles) := by
  obtain ⟨added1, f1, f2, f3⟩ := copy_spec env false info.Files 0 b
  unfold createFilesInsideRPM copyOk copyEntries
  rcases hc : copy env false 0 b info.Files with ⟨err, b1⟩
  rw [hc] at f1 f2 f3
  cases err with
  | some e =>
    refine ⟨added1, f1, ?_, by simp⟩
    simp only [reduceCtorEq, false_iff, not_and]
    intro hok
    exact absurd (f2.2 hok) (by simp)
  | none =>
    dsimp only at f1 f2 f3 ⊢
    obtain ⟨added2, c1, c2, c3⟩ := copy_spec env true info.ConfigFiles 0 b1
    refine ⟨added1 ++ added2, ?_, ?_, ?_⟩
    · rw [c1, f1, addFiles_addFiles]
    · rw [c2]
      constructor
      · intro h
        exact ⟨f2.1 rfl, h⟩
      · intro h
        exact h.2
    · intro hnone
      rw [f3 rfl, c3 hnone]

/-! ### Two runs that visit the maps in different orders -/

theorem sameGlob_symm (r r2 : Except String (List (String × String)))
    (h : sameGlob r r2) : sameGlob r2 r := by
  cases r <;> cases r2 <;> simp only [sameGlob] at h ⊢
  · exact h.symm
  · exact h.symm

theorem sameGlob_trans (r r2 r3 : Except String (List (String × String)))
    (h : sameGlob r r2) (h2 : sameGlob r2 r3) : sameGlob r r3 := by
  cases r <;> cases r2 <;> cases r3 <;> simp only [sameGlob] at h h2 ⊢
  · exact h.trans h2
  · exact h.trans h2

theorem sameTree_symm (env env2 : Env) (h : sameTree env env2) : sameTree env2 env :=
  ⟨h.1.symm, h.2.1.symm, fun c c2 i i2 src dst => sameGlob_symm _ _ (h.2.2 c2 c i2 i src dst)⟩

/-- Within one run too, every call for one pattern returns the same map. -/
theorem sameTree_right (env env2 : Env) (h : sameTree env env2) : sameTree env2 env2 :=
  ⟨rfl, rfl, fun c c2 i i2 src dst =>
    sameGlob_trans _ _ _ (sameGlob_symm _ _ (h.2.2 c c 0 i src dst)) (h.2.2 c c2 0 i2 src dst)⟩

theorem fileEntry_sameTree (env env2 : Env) (h : sameTree env env2) (src dst : String)
    (config : Bool) : fileEntry env2 src dst config = fileEntry env src dst config := by
  unfold fileEntry
  rw [h.1]

theorem entryOf_sameTree (env env2 : Env) (h : sameTree env env2) (config : Bool) :
    entryOf env2 config = entryOf env config := by
  funext p
  unfold entryOf
  rw [fileEntry_sameTree env env2 h]

theorem globbedOk_perm (env env2 : Env) (h : sameTree env env2) (config : Bool)
    (g g2 : List (String × String)) (hp : g.Perm g2) (hok : globbedOk env config g) :
    globbedOk env2 config g2 := by
  intro p hmem
  rw [fileEntry_sameTree env env2 h]
  exact hok p (hp.mem_iff.2 hmem)

theorem globbedEntries_perm (env env2 : Env) (h : sameTree env env2) (config : Bool)
    (g g2 : List (String × String)) (hp : g.Perm g2) :
    (globbedEntries env config g).Perm (globbedEntries env2 config g2) := by
  unfold globbedEntries
  rw [entryOf_sameTree env env2 h]
  exact hp.filterMap _

theorem patternEntries_perm (env env2 : Env) (h : sameTree env env2) (config : Bool)
    (i i2 : Nat) (p : String × String) :
    (patternEntries env config i p).Perm (patternEntries env2 config i2 p) := by
  have hg := h.2.2 config config i i2 p.1 p.2
  unfold patternEntries
  cases h1 : env.Glob config i p.1 p.2 with
  | error e =>
    cases h2 : env2.Glob config i2 p.1 p.2 with
    | error e2 => exact List.Perm.refl _
    | ok g2 => rw [h1, h2] at hg; exact absurd hg (by simp [sameGlob])
  | ok g =>
    cases h2 : env2.Glob config i2 p.1 p.2 with
    | error e2 => rw [h1, h2] at hg; exact absurd hg (by simp [sameGlob])
    | ok g2 =>
      rw [h1, h2] at hg
      exact globbedEntries_perm env env2 h config g g2 hg

/-- The entries of a pass, up to order, do not depend on the order in which each
glob result is visited. -/
theorem copyEntriesFrom_perm (env env2 : Env) (h : sameTree env env2) (config : Bool)
    (files : List (String × String)) :
    ∀ i : Nat, (copyEntriesFrom env config i files).Perm
      (files.flatMap (patternEntries env2 config 0)) := by
  induction files with
  | nil =>
    intro i
    simp [copyEntriesFrom]
  | cons p rest ih =>
    intro i
    unfold copyEntriesFrom
    rw [List.flatMap_cons]
    exact (patternEntries_perm env env2 h config i 0 p).append (ih (i + 1))

theorem copyEntries_perm (env env2 : Env) (h : sameTree env env2) (config : Bool)
    (files files2 : List (String × String)) (hp : files.Perm files2) :
    (copyEntries env config files).Perm (copyEntries env2 config files2) := by
  unfold copyEntries
  exact ((copyEntriesFrom_perm env env2 h config files 0).trans
    (List.Perm.flatMap_right _ hp)).trans
    (copyEntriesFrom_perm env2 env2 (sameTree_right env env2 h) config files2 0).symm

theorem patternOk_sameTree (env env2 : Env) (h : sameTree env env2) (config : Bool)
    (i i2 : Nat) (p : String × String)
    (hok : ∃ g, env.Glob config i p.1 p.2 = .ok g ∧ globbedOk env config g) :
    ∃ g2, env2.Glob config i2 p.1 p.2 = .ok g2 ∧ globbedOk env2 config g2 := by
  obtain ⟨g, hg, hgok⟩ := hok
  have hs := h.2.2 config config i i2 p.1 p.2
  rw [hg] at hs
  cases h2 : env2.Glob config i2 p.1 p.2 with
  | error e2 => rw [h2] at hs; exact absurd hs (by simp [sameGlob])
  | ok g2 =>
    rw [h2] at hs
    exact ⟨g2, rfl, globbedOk_perm env env2 h config g g2 hs hgok⟩

theorem copyOkFrom_iff (env env2 : Env) (h : sameTree env env2) (config : Bool)
    (files : List (String × String)) :
    ∀ i : Nat, copyOkFrom env config i files ↔
      ∀ p ∈ files, ∃ g2, env2.Glob config 0 p.1 p.2 = .ok g2 ∧ globbedOk env2 config g2 := by
  induction files with
  | nil =>
    intro i
    simp [copyOkFrom]
  | cons p rest ih =>
    intro i
    unfold copyOkFrom
    rw [ih (i + 1)]
    constructor
    · rintro ⟨h1, h2⟩ q hq
      rcases List.mem_cons.1 hq with rfl | hq
      · exact patternOk_sameTree env env2 h config i 0 q h1
      · exact h2 q hq
    · intro hall
      refine ⟨?_, fun q hq => hall q (List.mem_cons_of_mem _ hq)⟩
      exact patternOk_sameTree env2 env (sameTree_symm env env2 h) config 0 i p
        (hall p (by simp))

theorem copyOk_perm (env env2 : Env) (h : sameTree env env2) (config : Bool)
    (files files2 : List (String × String)) (hp : files.Perm files2)
    (hok : copyOk env config files) : copyOk env2 config files2 := by
  unfold copyOk at hok ⊢
  rw [copyOkFrom_iff env env2 h config files 0] at hok
  rw [copyOkFrom_iff env2 env2 (sameTree_right env env2 h) config files2 0]
  intro p hmem
  exact hok p (hp.mem_iff.2 hmem)

/-- Two runs over an unchanged source tree that visit the Files map, the ConfigFiles
map and each glob result map in different orders: when the first returns no error so
does the second, and they add the same file entries up to order. -/
theorem createFilesInsideRPM_entries_perm (env env2 : Env) (info info2 : Info)
    (b b2 : Build) (htree : sameTree env env2)
    (hF : info.Files.Perm info2.Files) (hC : info.ConfigFiles.Perm info2.ConfigFiles)
    (hok : (createFilesInsideRPM env info b).1 = none) :
    (createFilesInsideRPM env2 info2 b2).1 = none ∧
    (createFilesInsideRPM env info b).2.rpm.files = b.rpm.files ++
      (copyEntries env false info.Files ++ copyEntries env true info.ConfigFiles) ∧
    (createFilesInsideRPM env2 info2 b2).2.rpm.files = b2.rpm.files ++
      (copyEntries env2 false info2.Files ++ copyEntries env2 true info2.ConfigFiles) ∧
    (copyEntries env false info.Files ++ copyEntries env true info.ConfigFiles).Perm
      (copyEntries env2 false info2.Files ++ copyEntries env2 true info2.ConfigFiles) := by
  obtain ⟨added, a1, a2, a3⟩ := createFilesInsideRPM_spec env info b
  obtain ⟨added2, c1, c2, c3⟩ := createFilesInsideRPM_spec env2 info2 b2
  have hok1 := a2.1 hok
  have hok2 : (createFilesInsideRPM env2 info2 b2).1 = none :=
    c2.2 ⟨copyOk_perm env env2 htree false _ _ hF hok1.1,
      copyOk_perm env env2 htree true _ _ hC hok1.2⟩
  refine ⟨hok2, ?_, ?_, ?_⟩
  · rw [a1, addFiles_files, a3 hok]
  · rw [c1, addFiles_files, c3 hok2]
  · exact (copyEntries_perm env env2 htree false _ _ hF).append
      (copyEntries_perm env env2 htree true _ _ hC)

/-- The two trees `globTree` are one unchanged source tree. -/
theorem sameTree_globTree : sameTree (globTree true) (globTree false) := by
  refine ⟨rfl, rfl, ?_⟩
  intro c c2 i i2 src dst
  by_cases hsrc : src = "/g/*"
  · simp only [globTree, hsrc, if_true, sameGlob]
    exact List.Perm.swap _ _ _
  · simp [globTree, hsrc, sameGlob]

/-- C11, the code on a failing input: with Files = {`/g/*`: `/opt`} over an unchanged
tree that holds `/g/x` and `/g/y`, a run whose `range` loop visits the glob result
`y` first adds `/opt/y` before `/opt/x`, which is not ascending destination-path
order, and a run that visits it `x` first adds `/opt/x` before `/opt/y`: the sequence
is not the same on every run. The same happens with the order of the Files map
itself, for `/src/a` and `/src/b`. -/
theorem createFilesInsideRPM_follows_map_order :
    ((createFilesInsideRPM (globTree true) { Files := [("/g/*", "/opt")] }
        ⟨exampleRPM, []⟩).2.rpm.files.map (·.Name) = ["/opt/y", "/opt/x"]) ∧
    ((createFilesInsideRPM (globTree false) { Files := [("/g/*", "/opt")] }
        ⟨exampleRPM, []⟩).2.rpm.files.map (·.Name) = ["/opt/x", "/opt/y"]) ∧
    sameTree (globTree true) (globTree false) ∧
    ¬ List.Pairwise (fun x y : String => x ≤ y) ["/opt/y", "/opt/x"] ∧
    ((createFilesInsideRPM exampleTree
        { Files := [("/src/b", "/usr/b"), ("/src/a", "/usr/a")] }
        ⟨exampleRPM, []⟩).2.rpm.files.map (·.Name) = ["/usr/b", "/usr/a"]) ∧
    ((createFilesInsideRPM exampleTree
        { Files := [("/src/a", "/usr/a"), ("/src/b", "/usr/b")] }
        ⟨exampleRPM, []⟩).2.rpm.files.map (·.Name) = ["/usr/a", "/usr/b"]) ∧
    [("/src/b", "/usr/b"), ("/src/a", "/usr/a")].Perm
      [("/src/a", "/usr/a"), ("/src/b", "/usr/b")] ∧
    ¬ List.Pairwise (fun x y : String => x ≤ y) ["/usr/b", "/usr/a"] := by
  have hlt : "/opt/x" < "/opt/y" := by
    rw [String.lt_iff_toList_lt]
    decide
  have hlt2 : "/usr/a" < "/usr/b" := by
    rw [String.lt_iff_toList_lt]
    decide
  refine ⟨by decide, by decide, sameTree_globTree, ?_, by decide, by decide,
    List.Perm.swap _ _ _, ?_⟩
  · intro hsorted
    have hle : "/opt/y" ≤ "/opt/x" :=
      List.rel_of_pairwise_cons hsorted (List.mem_singleton_self _)
    exact absurd hlt (not_lt.2 hle)
  · intro hsorted
    have hle : "/usr/b" ≤ "/usr/a" :=
      List.rel_of_pairwise_cons hsorted (List.mem_singleton_self _)
    exact absurd hlt2 (not_lt.2 hle)

/-! ### Empty folders -/

theorem foldl_AddFile_emptyDir (dirs : List String) :
    ∀ rpm : rpmpack.RPM,
      dirs.foldl (fun r dir => r.AddFile { Name := dir, Mode := 1 ||| 0o40000 }) rpm
        = rpm.addFiles (dirs.map emptyDirEntry) := by
  induction dirs with
  | nil =>
    intro rpm
    simp [addFiles_nil]
  | cons d rest ih =>
    intro rpm
    rw [List.foldl_cons, ih, AddFile_eq_addFiles, addFiles_addFiles]
    rfl

theorem addEmptyDirsRPM_eq (info : Info) (rpm : rpmpack.RPM) :
    addEmptyDirsRPM info rpm = rpm.addFiles (info.EmptyFolders.map emptyDirEntry) :=
  foldl_AddFile_emptyDir info.EmptyFolders rpm

/-- One script step leaves the file entries alone. -/
theorem addScript_files (env : Env) (path : String)
    (add : rpmpack.RPM → rpmpack.Bytes → rpmpack.RPM)
    (hadd : ∀ r d, (add r d).files = r.files) (b : Build) :
    (addScript env path add b).2.rpm.files = b.rpm.files := by
  unfold addScript
  by_cases hp : path = ""
  · simp [hp]
  · simp only [ne_eq, hp, not_false_eq_true, if_true]
    cases env.ReadFile path with
    | error msg => rfl
    | ok data => exact hadd _ _

/-- The script steps leave the file entries alone. -/
theorem addScriptFiles_files (env : Env) (info : Info) (b : Build) :
    (addScriptFiles env info b).2.rpm.files = b.rpm.files := by
  have h1 := addScript_files env info.Scripts.PreInstall rpmpack.RPM.AddPrein
    (fun _ _ => rfl) b
  unfold addScriptFiles
  rcases hs1 : addScript env info.Scripts.PreInstall rpmpack.RPM.AddPrein b with ⟨e1, b1⟩
  rw [hs1] at h1
  cases e1 with
  | some e => exact h1
  | none =>
    dsimp only at h1 ⊢
    have h2 := addScript_files env info.Scripts.PreRemove rpmpack.RPM.AddPreun
      (fun _ _ => rfl) b1
    rcases hs2 : addScript env info.Scripts.PreRemove rpmpack.RPM.AddPreun b1 with ⟨e2, b2⟩
    rw [hs2] at h2
    cases e2 with
    | some e => exact h2.trans h1
    | none =>
      dsimp only at h2 ⊢
      have h3 := addScript_files env info.Scripts.PostInstall rpmpack.RPM.AddPostin
        (fun _ _ => rfl) b2
      rcases hs3 : addScript env info.Scripts.PostInstall rpmpack.RPM.AddPostin b2
        with ⟨e3, b3⟩
      rw [hs3] at h3
      cases e3 with
      | some e => exact h3.trans (h2.trans h1)
      | none =>
        dsimp only at h3 ⊢
        exact (addScript_files env info.Scripts.PostRemove rpmpack.RPM.AddPostun
          (fun _ _ => rfl) b3).trans (h3.trans (h2.trans h1))

/-- The translation of the architecture leaves the content fields alone. -/
theorem ensureValidArch_contents (info : Info) :
    (ensureValidArch info).EmptyFolders = info.EmptyFolders ∧
    (ensureValidArch info).Files = info.Files ∧
    (ensureValidArch info).ConfigFiles = info.ConfigFiles := by
  rcases ensureValidArch_cases info with ⟨-, he⟩ | ⟨-, he⟩ | ⟨-, he⟩ | ⟨-, -, -, he⟩ <;>
    rw [he] <;> exact ⟨rfl, rfl, rfl⟩

/-- A call of `Package` that returns no error went through every step, and what it
wrote is what `Write` emitted for the package it had built. -/
theorem Package_steps_of_ok (env : Env) (lib : rpmpack.Lib) (info : Info)
    (hok : (Package env lib info).err = none) :
    ∃ m b0 b1,
      headerArgs info = .ok m ∧ lib.newRPMError m = none ∧
      createFilesInsideRPM env (ensureValidArch info)
        ⟨addEmptyDirsRPM (ensureValidArch info) { metadata := m }, []⟩ = (none, b0) ∧
      addScriptFiles env (ensureValidArch info) b0 = (none, b1) ∧
      lib.Write b1.rpm = (none, (Package env lib info).written) := by
  cases hh : headerArgs info with
  | error e => simp [Package, hh] at hok
  | ok m =>
    cases hn : lib.newRPMError m with
    | some msg => simp [Package, hh, rpmpack.Lib.NewRPM, hn] at hok
    | none =>
      rcases hc : createFilesInsideRPM env (ensureValidArch info)
        ⟨addEmptyDirsRPM (ensureValidArch info) { metadata := m }, []⟩ with ⟨e0, b0⟩
      cases e0 with
      | some e => simp [Package, hh, rpmpack.Lib.NewRPM, hn, hc] at hok
      | none =>
        rcases hs : addScriptFiles env (ensureValidArch info) b0 with ⟨e1, b1⟩
        cases e1 with
        | some e => simp [Package, hh, rpmpack.Lib.NewRPM, hn, hc, hs] at hok
        | none =>
          rcases hw : lib.Write b1.rpm with ⟨ew, out⟩
          cases ew with
          | some e => simp [Package, hh, rpmpack.Lib.NewRPM, hn, hc, hs, hw] at hok
          | none =>
            have hP : Package env lib info = ⟨none, b1.ops, out⟩ := by
              simp [Package, hh, rpmpack.Lib.NewRPM, hn, hc, hs, hw]
            rw [hP]
            exact ⟨m, b0, b1, rfl, hn, hc, hs, hw⟩

/-- C12: `addEmptyDirsRPM` adds exactly one entry per element of EmptyFolders, in
list order, each named by that element, with no content body and with the fixed mode
`1 | 040000`, whose directory flag is set, whatever the other fields of the Info are;
and `Package` adds these entries before any file or config-file entry. -/
theorem addEmptyDirsRPM_entries (info : Info) (rpm : rpmpack.RPM) :
    (addEmptyDirsRPM info rpm).files = rpm.files ++ info.EmptyFolders.map emptyDirEntry ∧
    (∀ dir : String, (emptyDirEntry dir).Name = dir ∧ (emptyDirEntry dir).Body = [] ∧
      (emptyDirEntry dir).Mode = 1 ||| 0o40000 ∧
      (emptyDirEntry dir).Mode &&& 0o40000 = 0o40000) ∧
    (∀ info2 : Info, info2.EmptyFolders = info.EmptyFolders →
      addEmptyDirsRPM info2 rpm = addEmptyDirsRPM info rpm) ∧
    (∀ (env : Env) (m : rpmpack.RPMMetaData), ∃ added,
      (createFilesInsideRPM env (ensureValidArch info)
        ⟨addEmptyDirsRPM (ensureValidArch info) { metadata := m }, []⟩).2.rpm.files
        = info.EmptyFolders.map emptyDirEntry ++ added) ∧
    (∀ (env : Env) (lib : rpmpack.Lib), (Package env lib info).err = none →
      ∃ built : rpmpack.RPM,
        lib.Write built = (none, (Package env lib info).written) ∧
        built.files = info.EmptyFolders.map emptyDirEntry ++
          (copyEntries env false info.Files ++ copyEntries env true info.ConfigFiles)) := by
  obtain ⟨hE, hF, hC⟩ := ensureValidArch_contents info
  refine ⟨?_, ?_, ?_, ?_, ?_⟩
  · rw [addEmptyDirsRPM_eq, addFiles_files]
  · intro dir
    refine ⟨rfl, rfl, ?_, ?_⟩
    · show (0o40001 : Nat) = 1 ||| 0o40000
      decide
    · show (0o40001 : Nat) &&& 0o40000 = 0o40000
      decide
  · intro info2 h
    rw [addEmptyDirsRPM_eq, addEmptyDirsRPM_eq, h]
  · intro env m
    obtain ⟨added, h1, -, -⟩ := createFilesInsideRPM_spec env (ensureValidArch info)
      ⟨addEmptyDirsRPM (ensureValidArch info) { metadata := m }, []⟩
    refine ⟨added, ?_⟩
    rw [h1, addFiles_files, addEmptyDirsRPM_eq, addFiles_files, hE]
    rfl
  · intro env lib hok
    obtain ⟨m, b0, b1, -, -, hc, hs, hw⟩ := Package_steps_of_ok env lib info hok
    obtain ⟨added, h1, -, h3⟩ := createFilesInsideRPM_spec env (ensureValidArch info)
      ⟨addEmptyDirsRPM (ensureValidArch info) { metadata := m }, []⟩
    rw [hc] at h1 h3
    have hfiles := addScriptFiles_files env (ensureValidArch info) b0
    rw [hs] at hfiles
    refine ⟨b1.rpm, hw, ?_⟩
    dsimp only at h1 h3 hfiles
    rw [hfiles, h1, addFiles_files, addEmptyDirsRPM_eq, addFiles_files, h3 rfl, hE, hF, hC]
    rfl

/-- Witness of C12: with one empty folder and one file, the package that `Package`
writes has the folder entry first and the file entry after it. -/
theorem addEmptyDirsRPM_entries_witness :
    ∃ built : rpmpack.RPM,
      exampleLib.Write built = (none, (Package exampleTree exampleLib
        { Name := "foo", Arch := "amd64", Version := "1.0.0",
          EmptyFolders := ["/var/x"], Files := [("/src/a", "/usr/a")] }).written) ∧
      built.files = ["/var/x"].map emptyDirEntry ++
        (copyEntries exampleTree false [("/src/a", "/usr/a")] ++ copyEntries exampleTree true []) :=
  (addEmptyDirsRPM_entries
    { Name := "foo", Arch := "amd64", Version := "1.0.0",
      EmptyFolders := ["/var/x"], Files := [("/src/a", "/usr/a")] } exampleRPM).2.2.2.2
    exampleTree exampleLib (by decide)

/-! ### What `Package` hands to the header builder -/

/-- One script step leaves the metadata alone. -/
theorem addScript_metadata (env : Env) (path : String)
    (add : rpmpack.RPM → rpmpack.Bytes → rpmpack.RPM)
    (hadd : ∀ r d, (add r d).metadata = r.metadata) (b : Build) :
    (addScript env path add b).2.rpm.metadata = b.rpm.metadata := by
  unfold addScript
  by_cases hp : path = ""
  · simp [hp]
  · simp only [ne_eq, hp, not_false_eq_true, if_true]
    cases env.ReadFile path with
    | error msg => rfl
    | ok data => exact hadd _ _

/-- The script steps leave the metadata alone. -/
theorem addScriptFiles_metadata (env : Env) (info : Info) (b : Build) :
    (addScriptFiles env info b).2.rpm.metadata = b.rpm.metadata := by
  have h1 := addScript_metadata env info.Scripts.PreInstall rpmpack.RPM.AddPrein
    (fun _ _ => rfl) b
  unfold addScriptFiles
  rcases hs1 : addScript env info.Scripts.PreInstall rpmpack.RPM.AddPrein b with ⟨e1, b1⟩
  rw [hs1] at h1
  cases e1 with
  | some e => exact h1
  | none =>
    dsimp only at h1 ⊢
    have h2 := addScript_metadata env info.Scripts.PreRemove rpmpack.RPM.AddPreun
      (fun _ _ => rfl) b1
    rcases hs2 : addScript env info.Scripts.PreRemove rpmpack.RPM.AddPreun b1 with ⟨e2, b2⟩
    rw [hs2] at h2
    cases e2 with
    | some e => exact h2.trans h1
    | none =>
      dsimp only at h2 ⊢
      have h3 := addScript_metadata env info.Scripts.PostInstall rpmpack.RPM.AddPostin
        (fun _ _ => rfl) b2
      rcases hs3 : addScript env info.Scripts.PostInstall rpmpack.RPM.AddPostin b2
        with ⟨e3, b3⟩
      rw [hs3] at h3
      cases e3 with
      | some e => exact h3.trans (h2.trans h1)
      | none =>
        dsimp only at h3 ⊢
        exact (addScript_metadata env info.Scripts.PostRemove rpmpack.RPM.AddPostun
          (fun _ _ => rfl) b3).trans (h3.trans (h2.trans h1))

/-- The metadata of `headerArgs` is the value `Package` calls `rpmpack.NewRPM` with:
when the header builder rejects exactly this value, `Package` returns that error and
does nothing else, and a package that `Package` writes was built from this value. -/
theorem Package_hands_over (info : Info) (m : rpmpack.RPMMetaData)
    (hm : headerArgs info = .ok m) :
    (∀ (env : Env) (lib : rpmpack.Lib) (msg : String), lib.newRPMError m = some msg →
      Package env lib info = ⟨some (.other msg), [], []⟩) ∧
    (∀ (env : Env) (lib : rpmpack.Lib), (Package env lib info).err = none →
      ∃ built : rpmpack.RPM,
        built.metadata = m ∧ lib.Write built = (none, (Package env lib info).written)) := by
  constructor
  · intro env lib msg hrej
    simp [Package, hm, rpmpack.Lib.NewRPM, hrej]
  · intro env lib hok
    obtain ⟨m2, b0, b1, hm2, -, hc, hs, hw⟩ := Package_steps_of_ok env lib info hok
    rw [hm] at hm2
    cases hm2
    obtain ⟨added, h1, -, -⟩ := createFilesInsideRPM_spec env (ensureValidArch info)
      ⟨addEmptyDirsRPM (ensureValidArch info) { metadata := m }, []⟩
    rw [hc] at h1
    have hmeta := addScriptFiles_metadata env (ensureValidArch info) b0
    rw [hs] at hmeta
    refine ⟨b1.rpm, ?_, hw⟩
    dsimp only at h1 hmeta
    rw [hmeta, h1, addEmptyDirsRPM_eq]
    rfl

/-- C4: for every Info that passes validation, `Package` hands the header builder
Version = the part of `info.Version` before its first hyphen and Release =
everything after that hyphen, so that Version + "-" + Release = `info.Version`; with
no hyphen it hands Version = `info.Version` and Release = ""; and the two index
reads of the split result are in range for every Info. The metadata `m` is what
`Package` calls `rpmpack.NewRPM` with: a builder that rejects `m` makes `Package`
return that error, and a package `Package` writes carries `m`. -/
theorem package_version_release_split (info : Info) (hvalid : Validate info = .ok ()) :
    ∃ m, headerArgs info = .ok m ∧
      (∀ (env : Env) (lib : rpmpack.Lib) (msg : String), lib.newRPMError m = some msg →
        Package env lib info = ⟨some (.other msg), [], []⟩) ∧
      (∀ (env : Env) (lib : rpmpack.Lib), (Package env lib info).err = none →
        ∃ built : rpmpack.RPM,
          built.metadata = m ∧ lib.Write built = (none, (Package env lib info).written)) ∧
      (∀ a b, info.Version = String.mk (a ++ '-' :: b) → '-' ∉ a →
        m.Version = String.mk a ∧ m.Release = String.mk b ∧
        m.Version ++ "-" ++ m.Release = info.Version) ∧
      ('-' ∉ info.Version.data → m.Version = info.Version ∧ m.Release = "") ∧
      (∀ i : Info, ∃ v r, (vInfo i)[0]? = some v ∧ (vInfo i)[1]? = some r) := by
  obtain ⟨v, r, h0, h1, -, hh⟩ := headerArgs_of_valid info hvalid
  obtain ⟨hP1, hP2⟩ := Package_hands_over info _ hh
  refine ⟨_, hh, hP1, hP2, ?_, ?_, vInfo_index⟩
  · intro a b hv ha
    have hv2 : (ensureValidArch info).Version = String.mk (a ++ '-' :: b) := by
      rw [ensureValidArch_version, hv]
    rw [vInfo_of_hyphen _ a b hv2 ha] at h0 h1
    simp only [List.getElem?_cons_zero, List.getElem?_cons_succ, Option.some.injEq] at h0 h1
    subst h0 h1
    refine ⟨rfl, rfl, ?_⟩
    rw [hv]
    apply String.ext
    simp [String.data_append]
  · intro hv
    have hv2 : '-' ∉ (ensureValidArch info).Version.data := by
      rw [ensureValidArch_version]; exact hv
    rw [vInfo_of_no_hyphen _ hv2, ensureValidArch_version] at h0 h1
    simp only [List.getElem?_cons_zero, List.getElem?_cons_succ, Option.some.injEq] at h0 h1
    subst h0 h1
    exact ⟨rfl, rfl⟩

/-- Witness of C4: for `1.0.0-1-2`, a header builder that rejects exactly Version
`1.0.0` with Release `1-2` makes `Package` return its error. -/
theorem package_version_release_split_witness :
    Package exampleEnv
        (rejectingLib (fun m => decide (m.Version = "1.0.0" ∧ m.Release = "1-2")))
        { Name := "foo", Arch := "amd64", Version := "1.0.0-1-2" }
      = ⟨some (.other "rejected"), [], []⟩ := by
  obtain ⟨m, -, hP, -, h1, -, -⟩ := package_version_release_split
    { Name := "foo", Arch := "amd64", Version := "1.0.0-1-2" } (by decide)
  obtain ⟨hv, hr, -⟩ := h1 "1.0.0".data "1-2".data (by decide) (by decide)
  apply hP
  simp only [rejectingLib, hv, hr]
  decide

/-- C5: `ensureValidArch` maps Arch `amd64` to `x86_64`, `386` to `i386` and `arm64`
to `aarch64`, returns every other Arch unchanged and changes no field other than
Arch; the Arch that `Package` hands to the header builder is this translated value:
a builder that rejects the metadata `m` makes `Package` return that error, and a
package `Package` writes carries `m`. -/
theorem ensureValidArch_translates (info : Info) :
    (info.Arch = "amd64" → (ensureValidArch info).Arch = "x86_64") ∧
    (info.Arch = "386" → (ensureValidArch info).Arch = "i386") ∧
    (info.Arch = "arm64" → (ensureValidArch info).Arch = "aarch64") ∧
    (info.Arch ≠ "amd64" → info.Arch ≠ "386" → info.Arch ≠ "arm64" →
      ensureValidArch info = info) ∧
    ({ ensureValidArch info with Arch := info.Arch } = info) ∧
    (Validate info = .ok () →
      ∃ m, headerArgs info = .ok m ∧ m.Arch = (ensureValidArch info).Arch ∧
        (∀ (env : Env) (lib : rpmpack.Lib) (msg : String), lib.newRPMError m = some msg →
          Package env lib info = ⟨some (.other msg), [], []⟩) ∧
        (∀ (env : Env) (lib : rpmpack.Lib), (Package env lib info).err = none →
          ∃ built : rpmpack.RPM,
            built.metadata = m ∧
            lib.Write built = (none, (Package env lib info).written))) := by
  refine ⟨?_, ?_, ?_, ?_, ?_, ?_⟩
  · intro h
    rcases ensureValidArch_cases info with ⟨-, he⟩ | ⟨h2, -⟩ | ⟨h2, -⟩ | ⟨h2, -⟩
    · rw [he]
    · rw [h] at h2; exact absurd h2 (by decide)
    · rw [h] at h2; exact absurd h2 (by decide)
    · exact absurd h h2
  · intro h
    rcases ensureValidArch_cases info with ⟨h2, -⟩ | ⟨-, he⟩ | ⟨h2, -⟩ | ⟨-, h2, -⟩
    · rw [h] at h2; exact absurd h2 (by decide)
    · rw [he]
    · rw [h] at h2; exact absurd h2 (by decide)
    · exact absurd h h2
  · intro h
    rcases ensureValidArch_cases info with ⟨h2, -⟩ | ⟨h2, -⟩ | ⟨-, he⟩ | ⟨-, -, h2, -⟩
    · rw [h] at h2; exact absurd h2 (by decide)
    · rw [h] at h2; exact absurd h2 (by decide)
    · rw [he]
    · exact absurd h h2
  · intro h1 h2 h3
    rcases ensureValidArch_cases info with ⟨h, -⟩ | ⟨h, -⟩ | ⟨h, -⟩ | ⟨-, -, -, he⟩
    · exact absurd h h1
    · exact absurd h h2
    · exact absurd h h3
    · exact he
  · rcases ensureValidArch_cases info with ⟨-, he⟩ | ⟨-, he⟩ | ⟨-, he⟩ | ⟨-, -, -, he⟩ <;>
      rw [he]
  · intro hvalid
    obtain ⟨v, r, -, -, -, hh⟩ := headerArgs_of_valid info hvalid
    obtain ⟨hP1, hP2⟩ := Package_hands_over info _ hh
    exact ⟨_, hh, rfl, hP1, hP2⟩

/-- Witness of C5: `arm64` is translated to `aarch64`, and a header builder that
rejects exactly Arch `aarch64` makes `Package` return its error. -/
theorem ensureValidArch_translates_witness :
    (ensureValidArch { Name := "foo", Arch := "arm64", Version := "1.0.0" }).Arch = "aarch64" ∧
    Package exampleEnv (rejectingLib (fun m => decide (m.Arch = "aarch64")))
        { Name := "foo", Arch := "arm64", Version := "1.0.0" }
      = ⟨some (.other "rejected"), [], []⟩ := by
  have harch := (ensureValidArch_translates
    { Name := "foo", Arch := "arm64", Version := "1.0.0" }).2.2.1 (by decide)
  obtain ⟨m, -, hm, hP, -⟩ := (ensureValidArch_translates
    { Name := "foo", Arch := "arm64", Version := "1.0.0" }).2.2.2.2.2 (by decide)
  refine ⟨harch, ?_⟩
  apply hP
  simp only [rejectingLib, hm, harch]
  decide

/-- C10 (amended): for every Info that passes validation, the version information
`Package` hands to the header builder is Version and Release, the two parts of
`info.Version`; `info.Epoch` is not carried into the package metadata: with any other
Epoch the metadata handed over and the whole outcome of `Package` are the same. The
metadata `m` is what `Package` calls `rpmpack.NewRPM` with: a builder that rejects
`m` makes `Package` return that error, and a package `Package` writes carries `m`. -/
theorem package_ignores_epoch (info : Info) (hvalid : Validate info = .ok ()) :
    ∃ m v r, headerArgs info = .ok m ∧
      (vInfo info)[0]? = some v ∧ (vInfo info)[1]? = some r ∧
      m.Version = v ∧ m.Release = r ∧
      (∀ e : String, headerArgs { info with Epoch := e } = .ok m) ∧
      (∀ (e : String) (env : Env) (lib : rpmpack.Lib),
        Package env lib { info with Epoch := e } = Package env lib info) ∧
      (∀ (env : Env) (lib : rpmpack.Lib) (msg : String), lib.newRPMError m = some msg →
        Package env lib info = ⟨some (.other msg), [], []⟩) ∧
      (∀ (env : Env) (lib : rpmpack.Lib), (Package env lib info).err = none →
        ∃ built : rpmpack.RPM,
          built.metadata = m ∧ lib.Write built = (none, (Package env lib info).written)) := by
  have hH : ∀ e : String, headerArgs { info with Epoch := e } = headerArgs info := by
    intro e
    unfold headerArgs
    rw [ensureValidArch_epoch]
    rfl
  obtain ⟨v, r, h0, h1, -, hh⟩ := headerArgs_of_valid info hvalid
  have hvi : vInfo (ensureValidArch info) = vInfo info := by
    unfold vInfo
    rw [ensureValidArch_version]
  rw [hvi] at h0 h1
  obtain ⟨hP1, hP2⟩ := Package_hands_over info _ hh
  refine ⟨_, v, r, hh, h0, h1, rfl, rfl, ?_, ?_, hP1, hP2⟩
  · intro e
    rw [hH e, hh]
  · intro e env lib
    unfold Package
    rw [hH e, ensureValidArch_epoch]
    rfl

/-- Witness of C10: Epoch `2` leaves no trace in a build of `foo`. -/
theorem package_ignores_epoch_witness :
    Package exampleEnv exampleLib
        { Name := "foo", Arch := "amd64", Version := "1.0.0-1", Epoch := "2" }
      = Package exampleEnv exampleLib { Name := "foo", Arch := "amd64", Version := "1.0.0-1" } := by
  obtain ⟨-, -, -, -, -, -, -, -, -, h, -, -⟩ := package_ignores_epoch
    { Name := "foo", Arch := "amd64", Version := "1.0.0-1" } (by decide)
  exact h "2" exampleEnv exampleLib

end rpm
